import Mathlib

/-!
Verification of the gogogopher request-handling pipeline.

The TypeScript source is shallowly embedded: JS strings become `List Char`
(`Str`), the stateful rate limiter becomes explicit state passing, and
fallible methods (which `throw GopherError`) return `Except GopherError`.
Node's `path.posix` helpers (`normalize`, `join`, `extname`, `dirname`,
`relative`) are translated from their documented algorithms; the host
locale's `localeCompare` is modelled as code-point lexicographic
comparison.  All definitions are executable.
-/

namespace Gopher

/-- A JS string as a list of its code units. -/
abbrev Str := List Char

/-- Model of `String.prototype.startsWith`. -/
def jsStartsWith (s pat : Str) : Bool := decide (pat <+: s)

/-- Model of `String.prototype.endsWith`. -/
def jsEndsWith (s pat : Str) : Bool := decide (pat <:+ s)

/-- Model of `String.prototype.includes` (also of regex test for a literal). -/
def jsIncludes (s pat : Str) : Bool := decide (pat <:+: s)

/-- Model of `String.prototype.toLowerCase` on the code points that matter
here (the source only compares against ASCII patterns). -/
def jsToLower (s : Str) : Str := s.map Char.toLower

/-- Model of a case-insensitive regex test for a lowercase literal pattern. -/
def jsIncludesCI (s pat : Str) : Bool := jsIncludes (jsToLower s) pat

/-- ASCII whitespace trimmed by `String.prototype.trim`. -/
def jsWhitespace (c : Char) : Bool :=
  c = ' ' ∨ c = '\t' ∨ c = '\n' ∨ c = '\r' ∨ c = Char.ofNat 11 ∨ c = Char.ofNat 12

/-- Model of `String.prototype.trim`. -/
def jsTrim (s : Str) : Str :=
  ((s.dropWhile jsWhitespace).reverse.dropWhile jsWhitespace).reverse

/-- Model of `String.prototype.replace` with the global pattern matching a
single backslash, replacing each by a slash. -/
def jsReplaceBackslashes (s : Str) : Str :=
  s.map (fun c => if c = '\\' then '/' else c)

/-- Join a list of segments with a separator string (the string built when
Node joins path segments with a slash). -/
def joinSep (sep : Str) : List Str → Str
  | [] => []
  | [s] => s
  | s :: rest => s ++ sep ++ joinSep sep rest

/-- Decimal rendering of a number, as JS template interpolation produces. -/
def natToStr (n : Nat) : Str :=
  if n < 10 then [Nat.digitChar n]
  else natToStr (n / 10) ++ [Nat.digitChar (n % 10)]
decreasing_by exact Nat.div_lt_self (by omega) (by omega)

/-! ### Node `path.posix` model -/

/-- One step of Node's `normalizeString`: fold a path segment onto the stack
of kept segments (held in reverse).  `abs` is true for absolute paths, where
`..` segments at the root are dropped rather than kept. -/
def stepSeg (abs : Bool) (stack : List Str) (seg : Str) : List Str :=
  if seg = [] ∨ seg = ['.'] then stack
  else if seg = ['.', '.'] then
    match stack with
    | [] => if abs then [] else [['.', '.']]
    | top :: rest => if abs = false ∧ top = ['.', '.'] then ['.', '.'] :: top :: rest else rest
  else seg :: stack

/-- Resolve `.` and `..` segments, Node's `normalizeString` at segment level. -/
def normalizeSegs (abs : Bool) (segs : List Str) : List Str :=
  (segs.foldl (stepSeg abs) []).reverse

/-- Model of `path.posix.normalize`. -/
def posixNormalize (p : Str) : Str :=
  if p = [] then ['.']
  else
    let abs := decide (p.head? = some '/')
    let trailing := decide (p.getLast? = some '/')
    let body0 := joinSep ['/'] (normalizeSegs abs (p.splitOn '/'))
    let body1 := if body0 = [] ∧ abs = false then ['.'] else body0
    let body2 := if body1 ≠ [] ∧ trailing = true then body1 ++ ['/'] else body1
    if abs then '/' :: body2 else body2

/-- Model of `path.posix.join` on two arguments, as the source calls it. -/
def posixJoin (a b : Str) : Str :=
  if a = [] ∧ b = [] then ['.']
  else if a = [] then posixNormalize b
  else if b = [] then posixNormalize a
  else posixNormalize (a ++ '/' :: b)

/-- Model of `path.posix.extname`: the basename's suffix from its last dot,
empty for dotless names, names whose only dot is leading, and `..`. -/
def posixExtname (p : Str) : Str :=
  let base := ((p.reverse.dropWhile (fun c => c = '/')).takeWhile (fun c => c ≠ '/')).reverse
  let extRev := base.reverse.takeWhile (fun c => c ≠ '.')
  if extRev.length = base.length then []
  else if base.length - extRev.length - 1 = 0 then []
  else if base = ['.', '.'] then []
  else '.' :: extRev.reverse

/-- Model of `path.posix.dirname`. -/
def posixDirname (p : Str) : Str :=
  if p = [] then ['.']
  else
    let hasRoot := decide (p.head? = some '/')
    let r := (p.reverse.dropWhile (fun c => c = '/')).dropWhile (fun c => c ≠ '/')
    match r with
    | [] => if hasRoot then ['/'] else ['.']
    | [_] => ['/']
    | _ :: rest => if rest = ['/'] then ['/', '/'] else rest.reverse

/-- Drop the common leading segments of two segment lists. -/
def dropCommon : List Str → List Str → List Str × List Str
  | a :: as, b :: bs => if a = b then dropCommon as bs else (a :: as, b :: bs)
  | as, bs => (as, bs)

/-- Model of `path.posix.relative` for absolute arguments: resolve both to
segments, drop the common prefix, then one `..` per remaining source segment
followed by the remaining target segments. -/
def posixRelative (f t : Str) : Str :=
  let pair := dropCommon (normalizeSegs true (f.splitOn '/')) (normalizeSegs true (t.splitOn '/'))
  joinSep ['/'] (pair.1.map (fun _ => ['.', '.']) ++ pair.2)

/-! ### Data model (`types.ts`) -/

/-- The error class thrown throughout the source (`GopherError`). -/
structure GopherError where
  message : Str
  code : String
  statusCode : Nat
deriving DecidableEq, Repr

deriving instance DecidableEq for Except

/-- The error objects thrown by the embedded methods. -/
def errPathTraversalDetected : GopherError :=
  { message := ("Path traversal detected").data, code := "PATH_TRAVERSAL", statusCode := 403 }

def errSuspiciousPath : GopherError :=
  { message := ("Suspicious path pattern detected").data, code := "SUSPICIOUS_PATH", statusCode := 403 }

def errSelectorTooLong : GopherError :=
  { message := ("Selector too long").data, code := "SELECTOR_TOO_LONG", statusCode := 414 }

def errInvalidSelector : GopherError :=
  { message := ("Invalid characters in selector").data, code := "INVALID_SELECTOR", statusCode := 400 }

def errRateLimitExceeded : GopherError :=
  { message := ("Rate limit exceeded").data, code := "RATE_LIMIT_EXCEEDED", statusCode := 429 }

def errFileTooLarge : GopherError :=
  { message := ("File too large").data, code := "FILE_TOO_LARGE", statusCode := 413 }

def errFileTypeForbidden : GopherError :=
  { message := ("File type not allowed").data, code := "FILE_TYPE_FORBIDDEN", statusCode := 403 }

def errPathTraversalNotAllowed : GopherError :=
  { message := ("Path traversal not allowed").data, code := "PATH_TRAVERSAL", statusCode := 403 }

/-- A parsed request (`GopherRequest`); `searchTerms` is `undefined` or the
second tab-delimited field. -/
structure GopherRequest where
  selector : Str
  searchTerms : Option Str
deriving DecidableEq, Repr

/-- A directory-listing entry (`GopherItem`); the type tag is the single
wire character of `GopherItemType`. -/
structure GopherItem where
  type : Char
  displayString : Str
  selector : Str
  hostname : Str
  port : Nat
deriving DecidableEq, Repr

/-- The slice of `ServerConfig` the handlers read. -/
structure ServerConfig where
  port : Nat
  hostname : Str
  documentRoot : Str
  maxRequestSize : Nat
deriving DecidableEq, Repr

/-- The slice of `SecurityOptions` the security manager reads. -/
structure SecurityOptions where
  maxFileSize : Nat
  rateLimitRequests : Nat
  rateLimitWindow : Nat
deriving DecidableEq, Repr

/-- A per-client rate-limit record (the values of `rateLimitMap`). -/
structure RateClientData where
  count : Nat
  resetTime : Nat
deriving DecidableEq, Repr

/-- A directory entry as returned by `fs.readdir` with file types. -/
structure DirEntry where
  name : Str
  isDir : Bool
deriving DecidableEq, Repr

/-! ### SecurityManager (`security.ts`, the variant with a sandbox-scoped
constructor, whose line ranges the claims cite) -/

/-- String literal constants used by the embedded code. -/
def sDotDot : Str := "..".data

def sSlash : Str := "/".data

def sSlashDotSlash : Str := "/./".data

def sBackDotBack : Str := "\\.\\".data

def sPctDots : Str := "%2e%2e".data

def sPct2f : Str := "%2f".data

def sPct5c : Str := "%5c".data

def sNul : Str := [Char.ofNat 0]

/-- The `suspiciousPatterns` loop of `SecurityManager.validatePathTraversal`:
true when some pattern matches the raw selector. -/
def suspiciousPattern (selector : Str) : Bool :=
  jsIncludes selector sDotDot ||
  jsIncludes selector sSlashDotSlash ||
  jsIncludes selector sBackDotBack ||
  jsIncludesCI selector sPctDots ||
  jsIncludesCI selector sPct2f ||
  jsIncludesCI selector sPct5c ||
  jsIncludes selector sNul

/-- `SecurityManager.validatePathTraversal`. -/
def validatePathTraversal (selector : Str) : Except GopherError Unit :=
  let normalizedPath := posixNormalize selector
  if jsIncludes normalizedPath sDotDot then
    .error errPathTraversalDetected
  else if suspiciousPattern selector then
    .error errSuspiciousPath
  else .ok ()

/-- The character class `[\u0000-\u0008\u000e-\u001f\u007f]` rejected by
`SecurityManager.validateSelector`. -/
def forbiddenSelectorChar (c : Char) : Bool :=
  c.toNat ≤ 8 || (14 ≤ c.toNat && c.toNat ≤ 31) || c.toNat = 127

/-- `SecurityManager.validateSelector` (length cap then character class). -/
def validateSelector (selector : Str) : Except GopherError Unit :=
  if selector.length > 255 then
    .error errSelectorTooLong
  else if selector.any forbiddenSelectorChar then
    .error errInvalidSelector
  else .ok ()

/-- `SecurityManager.checkRateLimit`, with `Date.now()` and this client's
map entry passed explicitly; returns the entry after a successful check. -/
def checkRateLimit (opts : SecurityOptions) (now : Nat) (clientData : Option RateClientData) :
    Except GopherError RateClientData :=
  match clientData with
  | none => .ok ⟨1, now + opts.rateLimitWindow⟩
  | some cd =>
    if now > cd.resetTime then .ok ⟨1, now + opts.rateLimitWindow⟩
    else if cd.count ≥ opts.rateLimitRequests then
      .error errRateLimitExceeded
    else .ok ⟨cd.count + 1, cd.resetTime⟩

/-- The map entry for this client after one `checkRateLimit` call: a thrown
check leaves the map unchanged. -/
def rateAfter (opts : SecurityOptions) (now : Nat) (st : Option RateClientData) :
    Option RateClientData :=
  match checkRateLimit opts now st with
  | .ok cd => some cd
  | .error _ => st

/-- The map entry for this client after a sequence of requests at the given
times. -/
def rateStates (opts : SecurityOptions) (st : Option RateClientData) (times : List Nat) :
    Option RateClientData :=
  times.foldl (fun s now => rateAfter opts now s) st

/-- The verdicts of a sequence of `checkRateLimit` calls at the given times. -/
def rateRun (opts : SecurityOptions) (st : Option RateClientData) :
    List Nat → List (Except GopherError RateClientData)
  | [] => []
  | now :: rest => checkRateLimit opts now st :: rateRun opts (rateAfter opts now st) rest

/-- The `forbiddenExtensions` list of `SecurityManager.isFileTypeAllowed`. -/
def forbiddenExtensions : List Str :=
  [".exe".data, ".bat".data, ".cmd".data, ".com".data, ".scr".data, ".pif".data,
    ".vbs".data, ".js".data, ".jar".data, ".sh".data, ".bin".data]

/-- `SecurityManager.isFileTypeAllowed`. -/
def isFileTypeAllowed (filePath : Str) : Bool :=
  let extension := jsToLower (posixExtname filePath)
  decide (extension ∉ forbiddenExtensions)

/-- `SecurityManager.validateFileSize`. -/
def validateFileSize (opts : SecurityOptions) (fileSize : Nat) : Except GopherError Unit :=
  if fileSize > opts.maxFileSize then
    .error errFileTooLarge
  else .ok ()

/-! ### ProtocolHandler (`protocol.ts`) -/

/-- `ProtocolHandler.validateRequest`. -/
def validateRequest (selector : Str) : Except GopherError Unit :=
  if jsIncludes selector sDotDot then
    .error errPathTraversalNotAllowed
  else if selector.length > 255 then
    .error errSelectorTooLong
  else .ok ()

/-- `ProtocolHandler.resolvePath`. -/
def resolvePath (config : ServerConfig) (selector : Str) : Except GopherError Str :=
  let normalizedSelector := if ¬ jsStartsWith selector sSlash then '/' :: selector else selector
  let normalizedSelector := posixNormalize normalizedSelector
  let resolvedPath := posixJoin config.documentRoot normalizedSelector
  if ¬ jsStartsWith resolvedPath config.documentRoot then
    .error errPathTraversalNotAllowed
  else .ok resolvedPath

/-- `ProtocolHandler.determineItemType`. -/
def determineItemType (filePath : Str) (isDirectory : Bool) : Char :=
  if isDirectory then '1'
  else
    let extension := jsToLower (posixExtname filePath)
    if extension = ".txt".data ∨ extension = ".md".data ∨ extension = ".readme".data then '0'
    else if extension = ".gif".data then 'g'
    else if extension = ".jpg".data ∨ extension = ".jpeg".data ∨ extension = ".png".data ∨
        extension = ".bmp".data then 'I'
    else if extension = ".html".data ∨ extension = ".htm".data then 'h'
    else if extension = ".exe".data ∨ extension = ".zip".data ∨ extension = ".tar".data ∨
        extension = ".gz".data ∨ extension = ".pdf".data then '9'
    else '0'

/-- The filter of `ProtocolHandler.handleSearchRequest`. -/
def handleSearchFilter (allItems : List GopherItem) (searchTerms : Str) : List GopherItem :=
  allItems.filter fun item =>
    jsIncludes (jsToLower item.displayString) (jsToLower searchTerms) ||
    jsIncludes (jsToLower item.selector) (jsToLower searchTerms)

/-- `ProtocolHandler.parseRequest`. -/
def protocolParseRequest (rawRequest : Str) : GopherRequest :=
  let trimmedData := jsTrim rawRequest
  let parts := trimmedData.splitOn '\t'
  { selector := if parts.headD [] = [] then sSlash else parts.headD [],
    searchTerms :=
      match parts.drop 1 with
      | [] => none
      | second :: _ => if second = [] then none else some second }

/-- `ProtocolHandler.formatDirectoryListing` (this variant appends the menu
terminator itself). -/
def protocolFormatDirectoryListing (items : List GopherItem) : Str :=
  (items.map fun item =>
    item.type :: item.displayString ++ '\t' :: item.selector ++ '\t' :: item.hostname ++
      '\t' :: natToStr item.port ++ "\r\n".data).flatten ++ ".\r\n".data

/-! ### FileSystemHandler (`filesystem.ts`) -/

/-- `FileSystemHandler.formatDisplayString`. -/
def formatDisplayString (filename : Str) (isDirectory : Bool) : Str :=
  let displayName := if isDirectory then filename ++ ['/'] else filename
  if displayName.length > 67 then displayName.take 64 ++ "...".data else displayName

/-- `FileSystemHandler.getParentSelector`. -/
def getParentSelector (config : ServerConfig) (dirPath : Str) : Str :=
  let parentPath := posixDirname dirPath
  if parentPath = config.documentRoot then sSlash
  else '/' :: jsReplaceBackslashes (posixRelative config.documentRoot parentPath)

/-- The synthetic go-up entry prepended for non-root directories. -/
def parentItem (config : ServerConfig) (dirPath : Str) : GopherItem :=
  { type := '1', displayString := sDotDot, selector := getParentSelector config dirPath,
    hostname := config.hostname, port := config.port }

/-- The listing entry built for one visible directory entry. -/
def listingItem (config : ServerConfig) (dirPath : Str) (e : DirEntry) : GopherItem :=
  let fullPath := posixJoin dirPath e.name
  let relativePath := posixRelative config.documentRoot fullPath
  { type := determineItemType fullPath e.isDir,
    displayString := formatDisplayString e.name e.isDir,
    selector := '/' :: jsReplaceBackslashes relativePath,
    hostname := config.hostname, port := config.port }

/-- The comparator passed to `items.sort`, with `localeCompare` modelled as
code-point comparison. -/
def localeCompare : Str → Str → Int
  | [], [] => 0
  | [], _ :: _ => -1
  | _ :: _, [] => 1
  | a :: as, b :: bs => if a < b then -1 else if b < a then 1 else localeCompare as bs

/-- The sort comparator of `FileSystemHandler.getDirectoryListing`. -/
def itemCmp (a b : GopherItem) : Int :=
  if a.type = '1' ∧ b.type ≠ '1' then -1
  else if a.type ≠ '1' ∧ b.type = '1' then 1
  else localeCompare a.displayString b.displayString

/-- The comparator as the boolean ordering a stable JS sort realises. -/
def itemLe (a b : GopherItem) : Bool := decide (itemCmp a b ≤ 0)

/-- `FileSystemHandler.getDirectoryListing`, with the `fs.readdir` result
passed explicitly: optional go-up entry, visible entries, then a stable sort
by the comparator. -/
def getDirectoryListing (config : ServerConfig) (dirPath : Str) (entries : List DirEntry) :
    List GopherItem :=
  let base := if dirPath ≠ config.documentRoot then [parentItem config dirPath] else []
  let mapped := entries.filterMap fun e =>
    if jsStartsWith e.name ['.'] then none else some (listingItem config dirPath e)
  (base ++ mapped).mergeSort itemLe

/-- `FileSystemHandler.readFile`, with the `fs.stat` outcome passed
explicitly (`.ok size` or the stat error) and the raw content as data; the
binary/text branch only selects an encoding, both return the content. -/
def readFile (opts : SecurityOptions) (statResult : Except GopherError Nat)
    (filePath : Str) (content : Str) : Except GopherError Str :=
  match statResult with
  | .error e => .error e
  | .ok size =>
    match validateFileSize opts size with
    | .error e => .error e
    | .ok _ =>
      if ¬ isFileTypeAllowed filePath then
        .error errFileTypeForbidden
      else .ok content

/-! ### GopherServer (`server.ts`) -/

/-- The private `GopherServer.parseRequest` on the connection path. -/
def serverParseRequest (data : Str) : GopherRequest :=
  let trimmedData := jsTrim data
  let parts := trimmedData.splitOn '\t'
  { selector := parts.headD [],
    searchTerms :=
      match parts.drop 1 with
      | [] => none
      | second :: _ => if second = [] then none else some second }

/-- One wire line of the server's private `formatDirectoryListing`, without
its trailing CRLF. -/
def itemLineBody (item : GopherItem) : Str :=
  item.type :: item.displayString ++ '\t' :: item.selector ++ '\t' :: item.hostname ++
    '\t' :: natToStr item.port

/-- The server's private `formatDirectoryListing` (no terminator of its own). -/
def serverFormatDirectoryListing (items : List GopherItem) : Str :=
  (items.map fun item => itemLineBody item ++ "\r\n".data).flatten

/-- The menu terminator written after every response. -/
def terminator : Str := ".\r\n".data

/-- The bytes written for a directory response in `GopherServer.handleRequest`. -/
def wireDirectoryResponse (items : List GopherItem) : Str :=
  serverFormatDirectoryListing items ++ terminator

/-- The bytes written for a file response in `GopherServer.handleRequest`. -/
def wireFileResponse (data : Str) : Str := data ++ terminator

/-- The bytes written by `GopherServer.handleRequestError` for a classified
error. -/
def wireErrorResponse (message : Str) : Str :=
  '3' :: ("Error: ").data ++ message ++ "\terror\terror\t70\r\n".data ++ terminator

/-- Split a wire response into its CRLF-separated lines. -/
def splitCRLF : Str → List Str
  | [] => [[]]
  | [c] => [[c]]
  | c :: d :: rest =>
    if c = '\r' ∧ d = '\n' then [] :: splitCRLF rest
    else
      match splitCRLF (d :: rest) with
      | [] => [[c]]
      | s :: ss => (c :: s) :: ss

/-- How many lines of a response consist of the lone terminator dot. -/
def terminatorLineCount (s : Str) : Nat := (splitCRLF s).count ['.']

/-! ### Well-formedness notions for paths, from the spec's data model -/

/-- A proper path segment: nonempty, not a dot segment, and slash free. -/
def GoodSeg (s : Str) : Prop := s ≠ [] ∧ s ≠ ['.'] ∧ s ≠ ['.', '.'] ∧ '/' ∉ s

instance (s : Str) : Decidable (GoodSeg s) := by
  unfold GoodSeg
  infer_instance

/-- The sandbox root as the spec requires it: an absolute, normalized,
non-root directory path, given by its segments. -/
def NormalizedRoot (docRoot : Str) (rs : List Str) : Prop :=
  rs ≠ [] ∧ (∀ t ∈ rs, GoodSeg t) ∧ docRoot = '/' :: joinSep ['/'] rs

/-- The claim's notion of a traversal sequence in a selector: a literal
parent segment or a percent-encoded dot or separator variant. -/
def hasTraversalSequence (s : Str) : Bool :=
  jsIncludes s sDotDot || jsIncludesCI s sPctDots || jsIncludesCI s sPct2f ||
    jsIncludesCI s sPct5c

/-- True when `resolvePath` succeeds and its result begins with the
configured document root. -/
def resolvedWithinRoot (config : ServerConfig) (selector : Str) : Bool :=
  match resolvePath config selector with
  | .ok p => jsStartsWith p config.documentRoot
  | .error _ => false

/-! ### Classifier helper lemmas -/

/-- The extensions named by the classifier's switch. -/
def classifiedExtensions : List Str :=
  [".txt".data, ".md".data, ".readme".data, ".gif".data, ".jpg".data, ".jpeg".data,
    ".png".data, ".bmp".data, ".html".data, ".htm".data, ".exe".data, ".zip".data,
    ".tar".data, ".gz".data, ".pdf".data]


/-- Fixture items for the search-filter claim. -/
def itemGoUp : GopherItem :=
  { type := '1', displayString := sDotDot, selector := sSlash,
    hostname := ("localhost").data, port := 70 }

def itemSearchable : GopherItem :=
  { type := '0', displayString := ("searchable.txt").data,
    selector := ("/searchable.txt").data, hostname := ("localhost").data, port := 70 }

def itemOther : GopherItem :=
  { type := '0', displayString := ("other.txt").data, selector := ("/other.txt").data,
    hostname := ("localhost").data, port := 70 }

def itemBarfoo : GopherItem :=
  { type := '0', displayString := ("barfoo").data, selector := ("/barfoo").data,
    hostname := ("localhost").data, port := 70 }

def sSearch : Str := ("search").data

def sFooBar : Str := ("foo bar").data

def sFoo : Str := ("foo").data

def sBar : Str := ("bar").data

def optsDefault : SecurityOptions :=
  { maxFileSize := 10485760, rateLimitRequests := 100, rateLimitWindow := 60000 }

def sAppExe : Str := ("app.exe").data

def cfgData : ServerConfig :=
  { port := 70, hostname := ("localhost").data, documentRoot := ("/data").data,
    maxRequestSize := 1024 }

/-- The sandbox-relative shape of a directory strictly below the root. -/
def NormalizedSubdir (docRoot dirPath : Str) (segs : List Str) : Prop :=
  segs ≠ [] ∧ (∀ t ∈ segs, GoodSeg t ∧ '\\' ∉ t) ∧
    dirPath = docRoot ++ '/' :: joinSep ['/'] segs

def cexConfig : ServerConfig :=
  { port := 70, hostname := ("h").data, documentRoot := ("/root").data, maxRequestSize := 1024 }

def cexDir : Str := ("/root/sub").data

def cexEntryMinus : DirEntry := { name := ("-a").data, isDir := true }

def cexEntryB : DirEntry := { name := ("b").data, isDir := true }

/-- A listing entry whose text fields are carriage-return free. -/
def CRFreeItem (it : GopherItem) : Prop :=
  it.type ≠ '\r' ∧ '\r' ∉ it.displayString ∧ '\r' ∉ it.selector ∧ '\r' ∉ it.hostname

instance (it : GopherItem) : Decidable (CRFreeItem it) := by
  unfold CRFreeItem
  infer_instance
theorem determineItemType_mem (p : Str) (b : Bool) :
    determineItemType p b ∈ (['1', '0', 'g', 'I', 'h', '9'] : List Char) := by
  simp only [determineItemType]
  split
  · decide
  split
  · decide
  split
  · decide
  split
  · decide
  split
  · decide
  split
  · decide
  decide

theorem determineItemType_ne_error (p : Str) (b : Bool) : determineItemType p b ≠ '3' := by
  have h := determineItemType_mem p b
  intro he
  rw [he] at h
  simp at h

theorem determineItemType_false_ne_dir (p : Str) : determineItemType p false ≠ '1' := by
  simp only [determineItemType, Bool.false_eq_true, if_false]
  split
  · decide
  split
  · decide
  split
  · decide
  split
  · decide
  split
  · decide
  decide

/-! ### Claim theorems -/

/-- C9 counterexample: on an empty raw line the two request parsers return
different selectors, so they do not return the same structured request. -/
theorem C9_parsers_differ_on_empty_line :
    (protocolParseRequest []).selector = sSlash ∧
    (serverParseRequest []).selector = [] ∧
    protocolParseRequest [] ≠ serverParseRequest [] := by decide

/-- C9 (amended): for every raw line the two parsers agree on the search
terms, and on the selector exactly when the server parser's selector is
nonempty; the protocol parser maps an empty first field to the root
selector while the server parser keeps it empty. -/
theorem C9_parse_agreement (raw : Str) :
    protocolParseRequest raw =
      { selector :=
          if (serverParseRequest raw).selector = [] then sSlash
          else (serverParseRequest raw).selector,
        searchTerms := (serverParseRequest raw).searchTerms } := rfl

/-- C8 counterexample: a selector containing the control character LF, which
is outside the printable-ASCII allowlist and is not the tab delimiter,
nevertheless passes the selector check. -/
theorem C8_lf_passes_validation :
    validateSelector ['a', '\n', 'b'] = Except.ok () ∧
    ('\n').toNat = 10 ∧ forbiddenSelectorChar '\n' = false := by decide

/-- C8 (amended): the validator rejects selectors longer than 255 units with
`SELECTOR_TOO_LONG`; within the length limit it rejects selectors containing
a character of the class U+0000-U+0008, U+000E-U+001F, U+007F with
`INVALID_SELECTOR` (the whitespace controls U+0009-U+000D, tab among them,
are not in the class); printable-ASCII selectors within the limit pass. -/
theorem C8_selector_shape (s : Str) :
    (s.length > 255 → validateSelector s = .error errSelectorTooLong) ∧
    (s.length ≤ 255 → s.any forbiddenSelectorChar = true →
      validateSelector s = .error errInvalidSelector) ∧
    (s.length ≤ 255 → (∀ c ∈ s, 32 ≤ c.toNat ∧ c.toNat ≤ 126) →
      validateSelector s = .ok ()) := by
  refine ⟨fun h => ?_, fun h ha => ?_, fun h hp => ?_⟩
  · simp [validateSelector, h]
  · simp [validateSelector, show ¬ s.length > 255 by omega, ha]
  · have ha : s.any forbiddenSelectorChar = false := by
      rw [List.any_eq_false]
      intro c hc
      have := hp c hc
      simp [forbiddenSelectorChar]
      omega
    simp [validateSelector, show ¬ s.length > 255 by omega, ha]

theorem C8_selector_shape_witness :
    validateSelector (List.replicate 256 'a') = .error errSelectorTooLong ∧
    validateSelector [Char.ofNat 7] = .error errInvalidSelector ∧
    validateSelector ['o', 'k'] = .ok () :=
  ⟨(C8_selector_shape _).1 (by rw [List.length_replicate]; omega),
    (C8_selector_shape _).2.1 (by decide) (by decide),
    (C8_selector_shape _).2.2 (by decide) (by decide)⟩

/-- C3 counterexample: the parent go-up entry is present in the listing but
is dropped by the search filter (it is filtered like any other entry), and
the second tab field is matched as one whole substring, not term by term: a
label containing both `foo` and `bar` is dropped for the query `foo bar`. -/
theorem C3_parent_entry_filtered_out :
    itemGoUp ∈ [itemGoUp, itemSearchable, itemOther] ∧
    handleSearchFilter [itemGoUp, itemSearchable, itemOther] sSearch = [itemSearchable] ∧
    handleSearchFilter [itemBarfoo] sFooBar = [] ∧
    jsIncludes (jsToLower itemBarfoo.displayString) sFoo = true ∧
    jsIncludes (jsToLower itemBarfoo.displayString) sBar = true := by decide

/-- C3 (amended): the search response is the sublist of exactly those listing
entries whose display label or selector case-insensitively contains the whole
search string; the go-up entry receives no special retention. -/
theorem C3_search_filter (allItems : List GopherItem) (searchTerms : Str) :
    (handleSearchFilter allItems searchTerms).Sublist allItems ∧
    ∀ item, item ∈ handleSearchFilter allItems searchTerms ↔
      item ∈ allItems ∧
        (jsIncludes (jsToLower item.displayString) (jsToLower searchTerms) = true ∨
         jsIncludes (jsToLower item.selector) (jsToLower searchTerms) = true) := by
  constructor
  · exact List.filter_sublist _
  · intro it
    simp [handleSearchFilter, List.mem_filter]

/-- C10 counterexample: an oversized file with a forbidden extension is
rejected with `FILE_TOO_LARGE` (the size check runs first), not with
`FILE_TYPE_FORBIDDEN`. -/
theorem C10_oversized_forbidden_file_error :
    jsToLower (posixExtname sAppExe) ∈ forbiddenExtensions ∧
    readFile optsDefault (.ok 20971520) sAppExe ['x'] = .error errFileTooLarge ∧
    errFileTooLarge.code ≠ "FILE_TYPE_FORBIDDEN" := by decide

/-- C10 (amended): a file whose lowercase extension is forbidden is never
returned by `readFile`; when the stat succeeds and the size is within the
limit the failure is `FILE_TYPE_FORBIDDEN` (otherwise the earlier stat or
size error wins); the classifier still gives such files a non-error tag,
with `.exe` classified as binary. -/
theorem C10_forbidden_type_never_served (opts : SecurityOptions)
    (statResult : Except GopherError Nat) (filePath content : Str)
    (hext : jsToLower (posixExtname filePath) ∈ forbiddenExtensions) :
    (∀ c, readFile opts statResult filePath content ≠ .ok c) ∧
    (∀ size, statResult = .ok size → size ≤ opts.maxFileSize →
      readFile opts statResult filePath content = .error errFileTypeForbidden) ∧
    determineItemType filePath false ≠ '3' ∧
    (jsToLower (posixExtname filePath) = ".exe".data →
      determineItemType filePath false = '9') := by
  have hallow : isFileTypeAllowed filePath = false := by
    simp only [isFileTypeAllowed, decide_eq_false_iff_not, not_not]
    exact hext
  refine ⟨fun c => ?_, fun size hs hsize => ?_, determineItemType_ne_error _ _, fun h => ?_⟩
  · cases statResult with
    | error e => simp [readFile]
    | ok size =>
      cases hv : validateFileSize opts size with
      | error e => simp [readFile, hv]
      | ok u => simp [readFile, hv, hallow]
  · subst hs
    have hv : validateFileSize opts size = .ok () := by
      simp [validateFileSize, show ¬ size > opts.maxFileSize by omega]
    simp [readFile, hv, hallow]
  · simp only [determineItemType]
    rw [h]
    decide

theorem C10_forbidden_type_never_served_witness :
    readFile optsDefault (.ok 5) sAppExe ['x'] = .error errFileTypeForbidden ∧
    determineItemType sAppExe false = '9' := by
  have h := C10_forbidden_type_never_served optsDefault (.ok 5) sAppExe ['x'] (by decide)
  exact ⟨h.2.1 5 rfl (by decide), h.2.2.2 (by decide)⟩

/-- C4: the classifier is total with values in the closed tag set, never the
error tag; directories always get the directory tag; each extension row of
the table maps as specified and unlisted extensions default to the file tag. -/
theorem C4_classifier_totality (filePath : Str) (isDirectory : Bool) :
    determineItemType filePath isDirectory ∈ (['1', '0', 'g', 'I', 'h', '9'] : List Char) ∧
    determineItemType filePath isDirectory ≠ '3' ∧
    determineItemType filePath true = '1' ∧
    ((jsToLower (posixExtname filePath) = ".txt".data ∨
      jsToLower (posixExtname filePath) = ".md".data ∨
      jsToLower (posixExtname filePath) = ".readme".data) →
      determineItemType filePath false = '0') ∧
    (jsToLower (posixExtname filePath) = ".gif".data →
      determineItemType filePath false = 'g') ∧
    ((jsToLower (posixExtname filePath) = ".jpg".data ∨
      jsToLower (posixExtname filePath) = ".jpeg".data ∨
      jsToLower (posixExtname filePath) = ".png".data ∨
      jsToLower (posixExtname filePath) = ".bmp".data) →
      determineItemType filePath false = 'I') ∧
    ((jsToLower (posixExtname filePath) = ".html".data ∨
      jsToLower (posixExtname filePath) = ".htm".data) →
      determineItemType filePath false = 'h') ∧
    ((jsToLower (posixExtname filePath) = ".exe".data ∨
      jsToLower (posixExtname filePath) = ".zip".data ∨
      jsToLower (posixExtname filePath) = ".tar".data ∨
      jsToLower (posixExtname filePath) = ".gz".data ∨
      jsToLower (posixExtname filePath) = ".pdf".data) →
      determineItemType filePath false = '9') ∧
    (jsToLower (posixExtname filePath) ∉ classifiedExtensions →
      determineItemType filePath false = '0') := by
  refine ⟨determineItemType_mem _ _, determineItemType_ne_error _ _, rfl,
    ?_, ?_, ?_, ?_, ?_, ?_⟩
  · rintro (h | h | h) <;> (simp only [determineItemType]; rw [h]; decide)
  · intro h
    simp only [determineItemType]
    rw [h]
    decide
  · rintro (h | h | h | h) <;> (simp only [determineItemType]; rw [h]; decide)
  · rintro (h | h) <;> (simp only [determineItemType]; rw [h]; decide)
  · rintro (h | h | h | h | h) <;> (simp only [determineItemType]; rw [h]; decide)
  · intro h
    simp only [classifiedExtensions, List.mem_cons, List.not_mem_nil, or_false] at h
    push_neg at h
    obtain ⟨h1, h2, h3, h4, h5, h6, h7, h8, h9, h10, h11, h12, h13, h14, h15⟩ := h
    simp [determineItemType, h1, h2, h3, h4, h5, h6, h7, h8, h9, h10, h11, h12, h13, h14, h15]

theorem C4_classifier_totality_witness :
    determineItemType ("a.txt").data false = '0' ∧
    determineItemType ("b.GIF").data false = 'g' ∧
    determineItemType ("c.png").data false = 'I' ∧
    determineItemType ("d.htm").data false = 'h' ∧
    determineItemType ("e.zip").data false = '9' ∧
    determineItemType ("f.xyz").data false = '0' ∧
    determineItemType ("g.name").data true = '1' :=
  ⟨(C4_classifier_totality (("a.txt").data) false).2.2.2.1 (by decide),
    (C4_classifier_totality (("b.GIF").data) false).2.2.2.2.1 (by decide),
    (C4_classifier_totality (("c.png").data) false).2.2.2.2.2.1 (by decide),
    (C4_classifier_totality (("d.htm").data) false).2.2.2.2.2.2.1 (by decide),
    (C4_classifier_totality (("e.zip").data) false).2.2.2.2.2.2.2.1 (by decide),
    (C4_classifier_totality (("f.xyz").data) false).2.2.2.2.2.2.2.2 (by decide),
    (C4_classifier_totality (("g.name").data) true).2.2.1⟩

/-! ### Rate-limit lemmas and C2 -/

theorem rateStates_cons (opts : SecurityOptions) (st : Option RateClientData) (t : Nat)
    (ts : List Nat) :
    rateStates opts st (t :: ts) = rateStates opts (rateAfter opts t st) ts := rfl

theorem rateAfter_within (opts : SecurityOptions) (t r c : Nat) (ht : t ≤ r) :
    rateAfter opts t (some ⟨c, r⟩) =
      if opts.rateLimitRequests ≤ c then some ⟨c, r⟩ else some ⟨c + 1, r⟩ := by
  by_cases h : opts.rateLimitRequests ≤ c
  · rw [if_pos h]
    simp only [rateAfter, checkRateLimit]
    rw [if_neg (by omega), if_pos h]
  · rw [if_neg h]
    simp only [rateAfter, checkRateLimit]
    rw [if_neg (by omega), if_neg h]

theorem rateStates_within (opts : SecurityOptions) (r : Nat) (ts : List Nat) :
    ∀ c, (∀ x ∈ ts, x ≤ r) → c ≤ opts.rateLimitRequests →
      rateStates opts (some ⟨c, r⟩) ts =
        some ⟨min (c + ts.length) opts.rateLimitRequests, r⟩ := by
  induction ts with
  | nil =>
    intro c _ hc
    simp [rateStates]
    omega
  | cons t ts ih =>
    intro c h hc
    have ht : t ≤ r := h t (List.mem_cons_self t ts)
    rw [rateStates_cons, rateAfter_within opts t r c ht]
    by_cases hcl : opts.rateLimitRequests ≤ c
    · rw [if_pos hcl, ih c (fun x hx => h x (List.mem_cons_of_mem t hx)) hc]
      have hce : c = opts.rateLimitRequests := by omega
      subst hce
      simp only [List.length_cons]
      congr 2
      omega
    · rw [if_neg hcl, ih (c + 1) (fun x hx => h x (List.mem_cons_of_mem t hx)) (by omega)]
      simp only [List.length_cons]
      congr 2
      omega

theorem rateRun_within (opts : SecurityOptions) (r : Nat) (ts : List Nat) :
    ∀ c, (∀ x ∈ ts, x ≤ r) → c + ts.length ≤ opts.rateLimitRequests →
      ∀ res ∈ rateRun opts (some ⟨c, r⟩) ts, res.isOk = true := by
  induction ts with
  | nil => intro c _ _ res hres; simp [rateRun] at hres
  | cons t ts ih =>
    intro c h hc res hres
    simp only [List.length_cons] at hc
    have ht : t ≤ r := h t (List.mem_cons_self t ts)
    have hck : checkRateLimit opts t (some ⟨c, r⟩) = .ok ⟨c + 1, r⟩ := by
      simp only [checkRateLimit]
      rw [if_neg (by omega), if_neg (by omega)]
    simp only [rateRun, List.mem_cons] at hres
    rcases hres with rfl | hres
    · rw [hck]; rfl
    · have hst : rateAfter opts t (some ⟨c, r⟩) = some ⟨c + 1, r⟩ := by
        simp [rateAfter, hck]
      rw [hst] at hres
      exact ih (c + 1) (fun x hx => h x (List.mem_cons_of_mem t hx)) (by omega) res hres

/-- C2: starting from a fresh counter, a run of `rateLimitRequests` requests
inside one window all pass; one more request inside the window is rejected
with `RATE_LIMIT_EXCEEDED` and leaves the counter unchanged; a request after
the window has elapsed resets the counter to one and passes. -/
theorem C2_rate_limit_boundary (opts : SecurityOptions) (t0 : Nat) (rest : List Nat)
    (hlen : rest.length + 1 = opts.rateLimitRequests)
    (hin : ∀ x ∈ rest, x ≤ t0 + opts.rateLimitWindow)
    (textra : Nat) (hextra : textra ≤ t0 + opts.rateLimitWindow)
    (tnext : Nat) (hnext : t0 + opts.rateLimitWindow < tnext) :
    (∀ res ∈ rateRun opts none (t0 :: rest), res.isOk = true) ∧
    checkRateLimit opts textra (rateStates opts none (t0 :: rest)) =
      .error errRateLimitExceeded ∧
    rateStates opts none ((t0 :: rest) ++ [textra]) = rateStates opts none (t0 :: rest) ∧
    checkRateLimit opts tnext (rateStates opts none ((t0 :: rest) ++ [textra])) =
      .ok ⟨1, tnext + opts.rateLimitWindow⟩ := by
  have hfirst : rateAfter opts t0 none = some ⟨1, t0 + opts.rateLimitWindow⟩ := rfl
  have hstate : rateStates opts none (t0 :: rest) =
      some ⟨opts.rateLimitRequests, t0 + opts.rateLimitWindow⟩ := by
    rw [rateStates_cons, hfirst,
      rateStates_within opts (t0 + opts.rateLimitWindow) rest 1 hin (by omega)]
    congr 2
    omega
  have hreject : checkRateLimit opts textra (rateStates opts none (t0 :: rest)) =
      .error errRateLimitExceeded := by
    rw [hstate]
    simp only [checkRateLimit, show ¬ textra > t0 + opts.rateLimitWindow by omega, if_neg,
      not_false_iff]
    rw [if_pos (by simp)]
  have hsame : rateStates opts none ((t0 :: rest) ++ [textra]) =
      rateStates opts none (t0 :: rest) := by
    have hstep : rateStates opts none ((t0 :: rest) ++ [textra]) =
        rateAfter opts textra (rateStates opts none (t0 :: rest)) := by
      simp only [rateStates, List.foldl_append]
      rfl
    rw [hstep]
    simp [rateAfter, hreject]
  refine ⟨?_, hreject, hsame, ?_⟩
  · intro res hres
    simp only [rateRun, List.mem_cons] at hres
    rcases hres with rfl | hres
    · rfl
    · rw [hfirst] at hres
      exact rateRun_within opts (t0 + opts.rateLimitWindow) rest 1 hin (by omega) res hres
  · rw [hsame, hstate]
    simp only [checkRateLimit]
    rw [if_pos (by omega)]

theorem C2_rate_limit_boundary_witness :
    checkRateLimit { maxFileSize := 0, rateLimitRequests := 2, rateLimitWindow := 10 } 7
        (rateStates { maxFileSize := 0, rateLimitRequests := 2, rateLimitWindow := 10 }
          none [0, 5]) = .error errRateLimitExceeded ∧
    rateStates { maxFileSize := 0, rateLimitRequests := 2, rateLimitWindow := 10 }
        none ([0, 5] ++ [7]) =
      rateStates { maxFileSize := 0, rateLimitRequests := 2, rateLimitWindow := 10 }
        none [0, 5] ∧
    checkRateLimit { maxFileSize := 0, rateLimitRequests := 2, rateLimitWindow := 10 } 11
        (rateStates { maxFileSize := 0, rateLimitRequests := 2, rateLimitWindow := 10 }
          none ([0, 5] ++ [7])) = .ok ⟨1, 21⟩ := by
  have h := C2_rate_limit_boundary { maxFileSize := 0, rateLimitRequests := 2, rateLimitWindow := 10 }
    0 [5] (by decide) (by decide) 7 (by decide) 11 (by decide)
  exact ⟨h.2.1, h.2.2.1, h.2.2.2⟩

/-! ### Lemmas about split and join on the path separator -/

theorem splitOn_char_cons (sep c : Char) (s : Str) :
    (c :: s).splitOn sep =
      if c = sep then [] :: s.splitOn sep
      else (s.splitOn sep).modifyHead (c :: ·) := by
  simp only [List.splitOn, List.splitOnP_cons, beq_iff_eq]

theorem splitOn_char_ne_nil (sep : Char) (s : Str) : s.splitOn sep ≠ [] := by
  simp only [List.splitOn]
  exact List.splitOnP_ne_nil _ s

theorem splitOn_char_exists_cons (sep : Char) (s : Str) :
    ∃ x xs, s.splitOn sep = x :: xs := by
  cases hs : s.splitOn sep with
  | nil => exact absurd hs (splitOn_char_ne_nil sep s)
  | cons x xs => exact ⟨x, xs, rfl⟩

theorem splitOn_append_sep (sep : Char) (a b : Str) :
    (a ++ sep :: b).splitOn sep = a.splitOn sep ++ b.splitOn sep := by
  induction a with
  | nil => simp [splitOn_char_cons]
  | cons c a ih =>
    by_cases h : c = sep
    · subst h
      simp [splitOn_char_cons, ih]
    · obtain ⟨x, xs, hx⟩ := splitOn_char_exists_cons sep a
      simp only [List.cons_append, splitOn_char_cons, if_neg h, ih, hx]
      rfl

theorem splitOn_sep_free (sep : Char) (s : Str) (h : sep ∉ s) : s.splitOn sep = [s] := by
  simp only [List.splitOn]
  refine List.splitOnP_eq_single _ _ ?_
  intro x hx
  simp only [beq_iff_eq]
  exact fun he => h (he ▸ hx)

theorem splitOn_mem_no_sep (sep : Char) (s : Str) : ∀ t ∈ s.splitOn sep, sep ∉ t := by
  induction s with
  | nil => simp
  | cons c s ih =>
    intro t ht
    rw [splitOn_char_cons] at ht
    by_cases h : c = sep
    · rw [if_pos h] at ht
      rcases List.mem_cons.mp ht with rfl | ht
      · simp
      · exact ih t ht
    · obtain ⟨x, xs, hx⟩ := splitOn_char_exists_cons sep s
      rw [if_neg h, hx] at ht
      rcases List.mem_cons.mp ht with rfl | ht
      · intro hm
        rcases List.mem_cons.mp hm with rfl | hm
        · exact h rfl
        · exact ih x (hx ▸ List.mem_cons_self x xs) hm
      · exact ih t (hx ▸ List.mem_cons_of_mem x ht)

theorem joinSep_append (xs ys : List Str) (h : xs ≠ []) :
    joinSep ['/'] (xs ++ ys) =
      joinSep ['/'] xs ++ (if ys = [] then [] else '/' :: joinSep ['/'] ys) := by
  induction xs with
  | nil => exact absurd rfl h
  | cons x xs ih =>
    cases xs with
    | nil =>
      cases ys with
      | nil => simp [joinSep]
      | cons y ys => simp [joinSep]
    | cons x2 xs2 =>
      have h1 : joinSep ['/'] (x :: x2 :: xs2 ++ ys) =
          x ++ ['/'] ++ joinSep ['/'] (x2 :: xs2 ++ ys) := by
        simp [joinSep]
      have h2 : joinSep ['/'] (x :: x2 :: xs2) = x ++ ['/'] ++ joinSep ['/'] (x2 :: xs2) := by
        simp [joinSep]
      simp only [List.cons_append] at h1 ih ⊢
      rw [h1, h2, ih (by simp)]
      split <;> simp [List.append_assoc]

theorem splitOn_joinSep (ls : List Str) (hne : ls ≠ []) (h : ∀ l ∈ ls, '/' ∉ l) :
    (joinSep ['/'] ls).splitOn '/' = ls := by
  induction ls with
  | nil => exact absurd rfl hne
  | cons l ls ih =>
    cases ls with
    | nil => simp [joinSep, splitOn_sep_free '/' l (h l (List.mem_cons_self _ _))]
    | cons l2 ls2 =>
      have hj : joinSep ['/'] (l :: l2 :: ls2) = l ++ '/' :: joinSep ['/'] (l2 :: ls2) := by
        simp [joinSep]
      rw [hj, splitOn_append_sep, splitOn_sep_free '/' l (h l (List.mem_cons_self _ _)),
        ih (by simp) (fun x hx => h x (List.mem_cons_of_mem _ hx))]
      rfl

/-! ### Segment goodness through normalization -/

theorem stepSeg_good (stack : List Str) (seg : Str) (hst : ∀ t ∈ stack, GoodSeg t)
    (hseg : '/' ∉ seg) : ∀ t ∈ stepSeg true stack seg, GoodSeg t := by
  unfold stepSeg
  split
  · exact hst
  next h1 =>
    split
    next h2 =>
      cases stack with
      | nil => simp
      | cons top rest =>
        have hcond : ¬(true = false ∧ top = ['.', '.']) := by
          rintro ⟨hcon, -⟩
          simp at hcon
        show ∀ t ∈ (if true = false ∧ top = ['.', '.'] then ['.', '.'] :: top :: rest else rest),
          GoodSeg t
        rw [if_neg hcond]
        exact fun t ht => hst t (List.mem_cons_of_mem _ ht)
    next h2 =>
      intro t ht
      push_neg at h1
      rcases List.mem_cons.mp ht with rfl | ht
      · exact ⟨h1.1, h1.2, h2, hseg⟩
      · exact hst t ht

theorem foldl_stepSeg_good (segs : List Str) :
    ∀ stack, (∀ s ∈ segs, '/' ∉ s) → (∀ t ∈ stack, GoodSeg t) →
      ∀ t ∈ segs.foldl (stepSeg true) stack, GoodSeg t := by
  induction segs with
  | nil => intro stack _ hst; exact hst
  | cons seg segs ih =>
    intro stack hseg hst
    simp only [List.foldl_cons]
    exact ih _ (fun s hs => hseg s (List.mem_cons_of_mem _ hs))
      (stepSeg_good stack seg hst (hseg seg (List.mem_cons_self _ _)))

theorem normalizeSegs_good (p : Str) :
    ∀ t ∈ normalizeSegs true (p.splitOn '/'), GoodSeg t := by
  intro t ht
  rw [normalizeSegs, List.mem_reverse] at ht
  exact foldl_stepSeg_good _ [] (fun s hs => splitOn_mem_no_sep '/' p s hs) (by simp) t ht

theorem foldl_stepSeg_plain (segs : List Str) :
    ∀ stack, (∀ s ∈ segs, s = [] ∨ GoodSeg s) →
      segs.foldl (stepSeg true) stack =
        (segs.filter (fun s => !s.isEmpty)).reverse ++ stack := by
  induction segs with
  | nil => intro stack _; simp
  | cons seg segs ih =>
    intro stack h
    rcases h seg (List.mem_cons_self _ _) with rfl | hg
    · simp only [List.foldl_cons, show stepSeg true stack [] = stack from by simp [stepSeg]]
      rw [ih stack (fun s hs => h s (List.mem_cons_of_mem _ hs))]
      simp [List.filter_cons]
    · have hpush : stepSeg true stack seg = seg :: stack := by
        unfold stepSeg
        rw [if_neg (by push_neg; exact ⟨hg.1, hg.2.1⟩), if_neg hg.2.2.1]
      simp only [List.foldl_cons, hpush]
      rw [ih (seg :: stack) (fun s hs => h s (List.mem_cons_of_mem _ hs))]
      have hne : (!seg.isEmpty) = true := by
        simp [List.isEmpty_iff, hg.1]
      simp [List.filter_cons, hne, List.append_assoc]

theorem normalizeSegs_plain (segs : List Str) (h : ∀ s ∈ segs, s = [] ∨ GoodSeg s) :
    normalizeSegs true segs = segs.filter (fun s => !s.isEmpty) := by
  rw [normalizeSegs, foldl_stepSeg_plain segs [] h]
  simp

theorem filter_of_good (rs : List Str) (h : ∀ t ∈ rs, GoodSeg t) :
    rs.filter (fun s => !s.isEmpty) = rs := by
  rw [List.filter_eq_self]
  intro a ha
  simp [List.isEmpty_iff, (h a ha).1]

/-! ### Shape of an absolute normalized path -/

theorem posixNormalize_abs (p : Str) (hne : p ≠ []) (hh : p.head? = some '/') :
    posixNormalize p = '/' :: joinSep ['/'] (normalizeSegs true (p.splitOn '/')) ∨
      (normalizeSegs true (p.splitOn '/') ≠ [] ∧
        posixNormalize p =
          '/' :: (joinSep ['/'] (normalizeSegs true (p.splitOn '/')) ++ ['/'])) := by
  unfold posixNormalize
  rw [if_neg hne, hh]
  simp only [decide_eq_true_eq]
  by_cases hb : joinSep ['/'] (normalizeSegs true (p.splitOn '/')) = []
  · left
    simp [hb]
  · by_cases ht : p.getLast? = some '/'
    · right
      have hsegs : normalizeSegs true (p.splitOn '/') ≠ [] := by
        intro he
        rw [he] at hb
        exact hb rfl
      refine ⟨hsegs, ?_⟩
      simp [hb, ht]
    · left
      simp [hb, ht]

theorem splitOn_root (rs : List Str) (hrs : rs ≠ []) (hg : ∀ t ∈ rs, GoodSeg t) :
    ('/' :: joinSep ['/'] rs).splitOn '/' = [] :: rs := by
  rw [splitOn_char_cons, if_pos rfl, splitOn_joinSep rs hrs (fun l hl => (hg l hl).2.2.2)]

theorem jsStartsWith_eq_true (s pat : Str) (h : pat <+: s) : jsStartsWith s pat = true := by
  simp [jsStartsWith, h]

theorem prefix_resolve (rs : List Str) (hrs : rs ≠ []) (hg : ∀ t ∈ rs, GoodSeg t)
    (is : List Str) (hgis : ∀ t ∈ is, GoodSeg t) (X : Str)
    (hX : X = joinSep ['/'] is ∨ (is ≠ [] ∧ X = joinSep ['/'] is ++ ['/'])) :
    ('/' :: joinSep ['/'] rs) <+:
      posixNormalize (('/' :: joinSep ['/'] rs) ++ '/' :: '/' :: X) := by
  have hsplitX : ∃ is2, (X.splitOn '/').filter (fun s => !s.isEmpty) = is2 ∧
      (is2 = [] ∨ is2 = is) ∧ (∀ s ∈ X.splitOn '/', s = [] ∨ GoodSeg s) := by
    rcases hX with hX | ⟨hne, hX⟩
    · by_cases hisnil : is = []
      · subst hisnil
        subst hX
        refine ⟨[], by simp [joinSep], Or.inl rfl, ?_⟩
        intro s hs
        simp [joinSep] at hs
        exact Or.inl hs
      · subst hX
        rw [splitOn_joinSep is hisnil (fun l hl => (hgis l hl).2.2.2)]
        exact ⟨is, filter_of_good is hgis, Or.inr rfl, fun s hs => Or.inr (hgis s hs)⟩
    · subst hX
      have hsp : (joinSep ['/'] is ++ ['/']).splitOn '/' = is ++ [[]] := by
        have h2 : joinSep ['/'] is ++ ['/'] = joinSep ['/'] is ++ '/' :: [] := rfl
        rw [h2, splitOn_append_sep, splitOn_joinSep is hne (fun l hl => (hgis l hl).2.2.2)]
        simp
      rw [hsp]
      refine ⟨is, ?_, Or.inr rfl, ?_⟩
      · rw [List.filter_append, filter_of_good is hgis]
        simp
      · intro s hs
        rcases List.mem_append.mp hs with hs | hs
        · exact Or.inr (hgis s hs)
        · simp at hs
          exact Or.inl hs
  obtain ⟨is2, hfilter, _, hgood⟩ := hsplitX
  have hsplit : ((('/' :: joinSep ['/'] rs) ++ '/' :: '/' :: X).splitOn '/') =
      ([] :: rs) ++ [] :: X.splitOn '/' := by
    rw [splitOn_append_sep, splitOn_root rs hrs hg, splitOn_char_cons, if_pos rfl]
  have hsegs : normalizeSegs true ((('/' :: joinSep ['/'] rs) ++ '/' :: '/' :: X).splitOn '/') =
      rs ++ is2 := by
    rw [hsplit, normalizeSegs_plain]
    · simp only [List.filter_append, List.filter_cons, List.isEmpty_nil, Bool.not_true,
        Bool.false_eq_true, if_false]
      rw [filter_of_good rs hg, hfilter]
    · intro s hs
      rcases List.mem_append.mp hs with hs | hs
      · rcases List.mem_cons.mp hs with rfl | hs
        · exact Or.inl rfl
        · exact Or.inr (hg s hs)
      · rcases List.mem_cons.mp hs with rfl | hs
        · exact Or.inl rfl
        · exact hgood s hs
  have habs := posixNormalize_abs (('/' :: joinSep ['/'] rs) ++ '/' :: '/' :: X)
    (by simp) (by rw [List.cons_append]; rfl)
  rw [hsegs] at habs
  have hpref2 : joinSep ['/'] rs <+: joinSep ['/'] (rs ++ is2) := by
    rw [joinSep_append rs is2 hrs]
    exact List.prefix_append _ _
  rcases habs with he | ⟨_, he⟩ <;> rw [he]
  · exact List.cons_prefix_cons.mpr ⟨rfl, hpref2⟩
  · exact List.cons_prefix_cons.mpr ⟨rfl, hpref2.trans (List.prefix_append _ _)⟩

theorem resolvePath_within (config : ServerConfig) (rs : List Str)
    (hroot : NormalizedRoot config.documentRoot rs) (selector : Str) :
    resolvedWithinRoot config selector = true := by
  obtain ⟨hrs, hg, hdoc⟩ := hroot
  obtain ⟨q, hq⟩ : ∃ q,
      (if ¬ jsStartsWith selector sSlash then '/' :: selector else selector) = '/' :: q := by
    by_cases h : jsStartsWith selector sSlash
    · obtain ⟨t, ht⟩ : sSlash <+: selector := by simpa [jsStartsWith] using h
      refine ⟨t, ?_⟩
      rw [if_neg (by simpa using h), ← ht]
      rfl
    · exact ⟨selector, by rw [if_pos (by simpa using h)]⟩
  have hinner := posixNormalize_abs ('/' :: q) (by simp) rfl
  have hinner_ne : posixNormalize ('/' :: q) ≠ [] := by
    rcases hinner with he | ⟨_, he⟩ <;> rw [he] <;> simp
  have hdoc_ne : config.documentRoot ≠ [] := by
    rw [hdoc]
    simp
  have hjoin : posixJoin config.documentRoot (posixNormalize ('/' :: q)) =
      posixNormalize (config.documentRoot ++ '/' :: posixNormalize ('/' :: q)) := by
    unfold posixJoin
    rw [if_neg (by rintro ⟨hc, -⟩; exact hdoc_ne hc), if_neg hdoc_ne, if_neg hinner_ne]
  have hpref : config.documentRoot <+:
      posixNormalize (config.documentRoot ++ '/' :: posixNormalize ('/' :: q)) := by
    rw [hdoc]
    rcases hinner with he | ⟨hne, he⟩
    · rw [he]
      exact prefix_resolve rs hrs hg _ (normalizeSegs_good _) _ (Or.inl rfl)
    · rw [he]
      exact prefix_resolve rs hrs hg _ (normalizeSegs_good _) _ (Or.inr ⟨hne, rfl⟩)
  have hsw : jsStartsWith
      (posixNormalize (config.documentRoot ++ '/' :: posixNormalize ('/' :: q)))
      config.documentRoot = true := jsStartsWith_eq_true _ _ hpref
  simp only [resolvedWithinRoot, resolvePath, hq, hjoin]
  simp [hsw]

theorem traversal_rejected (selector : Str) (h : hasTraversalSequence selector = true) :
    validatePathTraversal selector = .error errPathTraversalDetected ∨
    validatePathTraversal selector = .error errSuspiciousPath := by
  by_cases hn : jsIncludes (posixNormalize selector) sDotDot = true
  · left
    simp [validatePathTraversal, hn]
  · right
    have hs : suspiciousPattern selector = true := by
      unfold suspiciousPattern
      unfold hasTraversalSequence at h
      simp only [Bool.or_eq_true] at h ⊢
      tauto
    simp [validatePathTraversal, hn, hs]

/-- C1 (amended): every selector containing a traversal sequence (literal
`..` or a percent-encoded dot or separator variant) is rejected by the
security validator with a path-traversal rejection, whose code is
`PATH_TRAVERSAL` when the normalized selector still contains `..` and
`SUSPICIOUS_PATH` otherwise; and for every selector whatsoever, on an
absolute normalized document root, `resolvePath` succeeds and its result
begins with the document root's prefix — resolution never escapes the
sandbox root. -/
theorem C1_traversal_confinement (config : ServerConfig) (rs : List Str)
    (hroot : NormalizedRoot config.documentRoot rs) (selector : Str) :
    (hasTraversalSequence selector = true →
      validatePathTraversal selector = .error errPathTraversalDetected ∨
      validatePathTraversal selector = .error errSuspiciousPath) ∧
    resolvedWithinRoot config selector = true :=
  ⟨traversal_rejected selector, resolvePath_within config rs hroot selector⟩

/-- C1 counterexample: a selector built from percent-encoded traversal
sequences is rejected, but with the `SUSPICIOUS_PATH` error code, not with
the `PATH_TRAVERSAL` kind the claim names. -/
theorem C1_encoded_traversal_error_code :
    hasTraversalSequence sPctDots = true ∧
    validatePathTraversal sPctDots = .error errSuspiciousPath ∧
    errSuspiciousPath.code ≠ "PATH_TRAVERSAL" := by decide

theorem C1_traversal_confinement_witness :
    (validatePathTraversal sDotDot = .error errPathTraversalDetected ∨
      validatePathTraversal sDotDot = .error errSuspiciousPath) ∧
    resolvedWithinRoot cfgData sDotDot = true := by
  have h := C1_traversal_confinement cfgData [('d' :: 'a' :: 't' :: 'a' :: [])]
    ⟨by decide, by decide, by decide⟩ sDotDot
  exact ⟨h.1 (by decide), h.2⟩

/-! ### Comparator lemmas for the listing sort -/

theorem localeCompare_swap (a : Str) : ∀ b, localeCompare a b = -localeCompare b a := by
  induction a with
  | nil => intro b; cases b <;> simp [localeCompare]
  | cons x xs ih =>
    intro b
    cases b with
    | nil => simp [localeCompare]
    | cons y ys =>
      simp only [localeCompare]
      rcases lt_trichotomy x y with h | rfl | h
      · simp [h, lt_asymm h]
      · simp [lt_irrefl, ih ys]
      · simp [h, lt_asymm h]

theorem localeCompare_le_trans : ∀ (a b c : Str),
    localeCompare a b ≤ 0 → localeCompare b c ≤ 0 → localeCompare a c ≤ 0 := by
  intro a
  induction a with
  | nil => intro b c _ _; cases c <;> simp [localeCompare]
  | cons x xs ih =>
    intro b c h1 h2
    cases b with
    | nil => simp [localeCompare] at h1
    | cons y ys =>
      cases c with
      | nil => simp [localeCompare] at h2
      | cons z zs =>
        simp only [localeCompare] at h1 h2 ⊢
        rcases lt_trichotomy x y with hxy | rfl | hxy
        · rcases lt_trichotomy y z with hyz | rfl | hyz
          · rw [if_pos (lt_trans hxy hyz)]
            omega
          · rw [if_pos hxy]
            omega
          · rw [if_neg (lt_asymm hyz), if_pos hyz] at h2
            omega
        · rw [if_neg (lt_irrefl x), if_neg (lt_irrefl x)] at h1
          rcases lt_trichotomy x z with hxz | rfl | hxz
          · rw [if_pos hxz]
            omega
          · rw [if_neg (lt_irrefl x), if_neg (lt_irrefl x)] at h2 ⊢
            exact ih ys zs h1 h2
          · rw [if_neg (lt_asymm hxz), if_pos hxz] at h2
            omega
        · rw [if_neg (lt_asymm hxy), if_pos hxy] at h1
          omega

theorem localeCompare_total (a b : Str) : localeCompare a b ≤ 0 ∨ localeCompare b a ≤ 0 := by
  rw [localeCompare_swap a b]
  omega

theorem itemLe_total : ∀ a b : GopherItem, (itemLe a b || itemLe b a) = true := by
  intro a b
  simp only [itemLe, Bool.or_eq_true, decide_eq_true_eq]
  unfold itemCmp
  by_cases ha : a.type = '1' <;> by_cases hb : b.type = '1' <;> simp [ha, hb]
  · exact localeCompare_total _ _
  · exact localeCompare_total _ _

theorem itemLe_trans : ∀ a b c : GopherItem,
    itemLe a b = true → itemLe b c = true → itemLe a c = true := by
  intro a b c h1 h2
  simp only [itemLe, decide_eq_true_eq] at h1 h2 ⊢
  unfold itemCmp at h1 h2 ⊢
  by_cases ha : a.type = '1' <;> by_cases hb : b.type = '1' <;> by_cases hc : c.type = '1' <;>
      simp [ha, hb, hc] at h1 h2 ⊢
  · exact localeCompare_le_trans _ _ _ h1 h2
  · exact localeCompare_le_trans _ _ _ h1 h2

/-- C6: in every directory listing, directory-tagged entries precede
non-directory entries, and within each of the two groups the display labels
are in nondecreasing lexicographic order. -/
theorem C6_listing_order (config : ServerConfig) (dirPath : Str) (entries : List DirEntry) :
    List.Pairwise (fun a b =>
        (a.type = '1' ∧ b.type ≠ '1') ∨
        ((a.type = '1' ↔ b.type = '1') ∧
          localeCompare a.displayString b.displayString ≤ 0))
      (getDirectoryListing config dirPath entries) := by
  unfold getDirectoryListing
  refine (List.sorted_mergeSort itemLe_trans itemLe_total _).imp ?_
  intro a b hab
  simp only [itemLe, decide_eq_true_eq] at hab
  unfold itemCmp at hab
  by_cases ha : a.type = '1' <;> by_cases hb : b.type = '1' <;> simp [ha, hb] at hab ⊢
  · exact hab
  · exact hab

/-! ### Small evaluation and structure lemmas for listings -/

theorem mergeSort_pair {α : Type} (le : α → α → Bool) (a b : α) :
    [a, b].mergeSort le = if le a b then [a, b] else [b, a] := by
  rw [List.mergeSort]
  simp [List.splitInTwo, List.splitAt, List.splitAt.go, List.merge]

theorem cons_trunc (c : Char) (l : Str) :
    ∃ t, (if (c :: l).length > 67 then List.take 64 (c :: l) ++ "...".data else c :: l) =
      c :: t := by
  by_cases h : (c :: l).length > 67
  · rw [if_pos h, show (64 : Nat) = 63 + 1 from rfl, List.take_succ_cons]
    exact ⟨_, rfl⟩
  · rw [if_neg h]
    exact ⟨l, rfl⟩

theorem formatDisplayString_cons (c : Char) (cs : Str) (b : Bool) :
    ∃ t, formatDisplayString (c :: cs) b = c :: t := by
  cases b with
  | false => simpa [formatDisplayString] using cons_trunc c cs
  | true =>
    have h := cons_trunc c (cs ++ ['/'])
    simpa [formatDisplayString] using h

theorem listingItem_display_ne_dotdot (config : ServerConfig) (dirPath : Str) (e : DirEntry)
    (h : jsStartsWith e.name ['.'] = false) :
    (listingItem config dirPath e).displayString ≠ sDotDot := by
  have hds : (listingItem config dirPath e).displayString =
      formatDisplayString e.name e.isDir := rfl
  rw [hds]
  cases hn : e.name with
  | nil =>
    unfold formatDisplayString
    cases e.isDir <;> simp [sDotDot]
  | cons c cs =>
    have hc : c ≠ '.' := by
      intro rfl_c
      rw [hn, rfl_c] at h
      simp [jsStartsWith, List.cons_prefix_cons] at h
    obtain ⟨t, ht⟩ := formatDisplayString_cons c cs e.isDir
    rw [ht]
    intro he
    have hch : c = '.' := by
      have := congrArg (fun l => l.head?) he
      simpa [sDotDot] using this
    exact hc hch

theorem getLast?_mem {α : Type} (l : List α) (a : α) (h : l.getLast? = some a) : a ∈ l := by
  induction l with
  | nil => simp at h
  | cons x xs ih =>
    cases xs with
    | nil =>
      simp [List.getLast?] at h
      simp [h]
    | cons y ys =>
      rw [List.getLast?_cons_cons] at h
      exact List.mem_cons_of_mem _ (ih h)

theorem joinSep_good_last (rs : List Str) (hrs : rs ≠ []) (hg : ∀ t ∈ rs, GoodSeg t) :
    joinSep ['/'] rs ≠ [] ∧ ∀ c, (joinSep ['/'] rs).getLast? = some c → c ≠ '/' := by
  induction rs with
  | nil => exact absurd rfl hrs
  | cons r rs ih =>
    cases rs with
    | nil =>
      have hr := hg r (List.mem_cons_self _ _)
      refine ⟨by simpa [joinSep] using hr.1, ?_⟩
      intro c hc
      simp only [joinSep] at hc
      intro rfl_c
      subst rfl_c
      exact hr.2.2.2 (getLast?_mem _ _ hc)
    | cons r2 rs2 =>
      obtain ⟨hne2, hlast2⟩ := ih (by simp) (fun t ht => hg t (List.mem_cons_of_mem _ ht))
      have hj : joinSep ['/'] (r :: r2 :: rs2) = r ++ ['/'] ++ joinSep ['/'] (r2 :: rs2) := by
        simp [joinSep]
      constructor
      · rw [hj]
        simp
      · intro c hc
        rw [hj, List.getLast?_append] at hc
        obtain ⟨x, hx⟩ : ∃ x, (joinSep ['/'] (r2 :: rs2)).getLast? = some x := by
          cases hgl : (joinSep ['/'] (r2 :: rs2)).getLast? with
          | none => exact absurd (List.getLast?_eq_none_iff.mp hgl) hne2
          | some x => exact ⟨x, rfl⟩
        have hxc : x = c := by
          rw [hx, Option.or_some] at hc
          exact Option.some.inj hc
        exact hlast2 c (hxc ▸ hx)

theorem dropWhile_all_append {α : Type} (p : α → Bool) (xs ys : List α)
    (h : ∀ x ∈ xs, p x = true) : List.dropWhile p (xs ++ ys) = List.dropWhile p ys := by
  induction xs with
  | nil => rfl
  | cons x xs ih =>
    rw [List.cons_append, List.dropWhile_cons, if_pos (h x (List.mem_cons_self _ _))]
    exact ih (fun a ha => h a (List.mem_cons_of_mem _ ha))

theorem posixDirname_append_seg (a seg : Str) (ha : a.head? = some '/')
    (hal : ∀ c, a.getLast? = some c → c ≠ '/') (hs : seg ≠ []) (hsf : '/' ∉ seg) :
    posixDirname (a ++ '/' :: seg) = a := by
  have hane : a ≠ [] := by
    intro he
    rw [he] at ha
    simp at ha
  have hrev : (a ++ '/' :: seg).reverse = seg.reverse ++ '/' :: a.reverse := by
    rw [List.reverse_append, List.reverse_cons, List.append_assoc]
    rfl
  have hsegrev : ∃ c cs, seg.reverse = c :: cs ∧ c ≠ '/' := by
    cases hsr : seg.reverse with
    | nil => exact absurd (by simpa using congrArg List.reverse hsr) hs
    | cons c cs =>
      refine ⟨c, cs, rfl, ?_⟩
      intro rfl_c
      exact hsf (by
        have : c ∈ seg.reverse := by rw [hsr]; exact List.mem_cons_self _ _
        rw [List.mem_reverse] at this
        exact rfl_c ▸ this)
  obtain ⟨c, cs, hsr, hcne⟩ := hsegrev
  have hd1 : (a ++ '/' :: seg).reverse.dropWhile (fun c => c = '/') =
      seg.reverse ++ '/' :: a.reverse := by
    rw [hrev, hsr, List.cons_append, List.dropWhile_cons, if_neg (by simp [hcne])]
  have hd2 : (seg.reverse ++ '/' :: a.reverse).dropWhile (fun c => c ≠ '/') =
      '/' :: a.reverse := by
    rw [dropWhile_all_append _ _ _ ?hall]
    · rw [List.dropWhile_cons, if_neg (by simp)]
    case hall =>
      intro x hx
      rw [List.mem_reverse] at hx
      simp only [decide_eq_true_eq]
      intro rfl_x
      exact hsf (rfl_x ▸ hx)
  unfold posixDirname
  rw [if_neg (by simp [hane]), hd1, hd2]
  have harev : ∃ y ys, a.reverse = y :: ys := by
    cases har : a.reverse with
    | nil => exact absurd (by simpa using congrArg List.reverse har) hane
    | cons y ys => exact ⟨y, ys, rfl⟩
  obtain ⟨y, ys, har⟩ := harev
  rw [har]
  have hnotslash : a.reverse ≠ ['/'] := by
    intro he
    have ha1 : a = ['/'] := by
      have := congrArg List.reverse he
      simpa using this
    rw [ha1] at hal
    exact hal '/' rfl rfl
  show (if y :: ys = ['/'] then ['/', '/'] else (y :: ys).reverse) = a
  rw [if_neg (har ▸ hnotslash), ← har, List.reverse_reverse]

/-! ### Relative-path lemmas -/

theorem dropCommon_self_append (rs : List Str) :
    ∀ is, dropCommon rs (rs ++ is) = ([], is) := by
  induction rs with
  | nil =>
    intro is
    cases is <;> rfl
  | cons r rs ih =>
    intro is
    show dropCommon (r :: rs) (r :: (rs ++ is)) = ([], is)
    unfold dropCommon
    rw [if_pos rfl]
    exact ih is

theorem normalizeSegs_root (rs : List Str) (hrs : rs ≠ []) (hg : ∀ t ∈ rs, GoodSeg t) :
    normalizeSegs true (('/' :: joinSep ['/'] rs).splitOn '/') = rs := by
  rw [splitOn_root rs hrs hg, normalizeSegs_plain]
  · rw [List.filter_cons]
    simp only [List.isEmpty_nil, Bool.not_true, Bool.false_eq_true, if_false]
    exact filter_of_good rs hg
  · intro s hs
    rcases List.mem_cons.mp hs with rfl | hs
    · exact Or.inl rfl
    · exact Or.inr (hg s hs)

theorem normalizeSegs_subpath (rs sub : List Str) (hrs : rs ≠ []) (hg : ∀ t ∈ rs, GoodSeg t)
    (hsubne : sub ≠ []) (hgs : ∀ t ∈ sub, GoodSeg t) :
    normalizeSegs true
        ((('/' :: joinSep ['/'] rs) ++ '/' :: joinSep ['/'] sub).splitOn '/') = rs ++ sub := by
  rw [splitOn_append_sep, splitOn_root rs hrs hg,
    splitOn_joinSep sub hsubne (fun l hl => (hgs l hl).2.2.2), normalizeSegs_plain]
  · rw [List.filter_append, List.filter_cons]
    simp only [List.isEmpty_nil, Bool.not_true, Bool.false_eq_true, if_false]
    rw [filter_of_good rs hg, filter_of_good sub hgs]
  · intro s hs
    rcases List.mem_append.mp hs with hs | hs
    · rcases List.mem_cons.mp hs with rfl | hs
      · exact Or.inl rfl
      · exact Or.inr (hg s hs)
    · exact Or.inr (hgs s hs)

theorem posixRelative_down (rs sub : List Str) (hrs : rs ≠ []) (hg : ∀ t ∈ rs, GoodSeg t)
    (hsubne : sub ≠ []) (hgs : ∀ t ∈ sub, GoodSeg t) :
    posixRelative ('/' :: joinSep ['/'] rs)
        (('/' :: joinSep ['/'] rs) ++ '/' :: joinSep ['/'] sub) = joinSep ['/'] sub := by
  unfold posixRelative
  rw [normalizeSegs_root rs hrs hg, normalizeSegs_subpath rs sub hrs hg hsubne hgs,
    dropCommon_self_append rs sub]
  simp

theorem jsReplaceBackslashes_id (s : Str) : '\\' ∉ s → jsReplaceBackslashes s = s := by
  unfold jsReplaceBackslashes
  induction s with
  | nil => intro _; rfl
  | cons c cs ih =>
    intro h
    have hcne : c ≠ '\\' := by
      intro he
      subst he
      exact h (List.mem_cons_self _ _)
    rw [List.map_cons, if_neg hcne, ih (fun hm => h (List.mem_cons_of_mem c hm))]

theorem mem_joinSep (ls : List Str) (c : Char) (h : c ∈ joinSep ['/'] ls) :
    c = '/' ∨ ∃ l ∈ ls, c ∈ l := by
  induction ls with
  | nil => simp [joinSep] at h
  | cons l ls ih =>
    cases ls with
    | nil =>
      simp only [joinSep] at h
      exact Or.inr ⟨l, List.mem_cons_self _ _, h⟩
    | cons l2 ls2 =>
      have hj : joinSep ['/'] (l :: l2 :: ls2) = l ++ ['/'] ++ joinSep ['/'] (l2 :: ls2) := by
        simp [joinSep]
      rw [hj] at h
      rcases List.mem_append.mp h with h | h
      · rcases List.mem_append.mp h with h | h
        · exact Or.inr ⟨l, List.mem_cons_self _ _, h⟩
        · simp at h
          exact Or.inl h
      · rcases ih h with h | ⟨l3, hl3, hc3⟩
        · exact Or.inl h
        · exact Or.inr ⟨l3, List.mem_cons_of_mem _ hl3, hc3⟩

/-! ### The parent selector of a well-formed subdirectory -/

theorem getLast?_cons_of_ne_nil {α : Type} (a : α) (l : List α) (h : l ≠ []) :
    (a :: l).getLast? = l.getLast? := by
  cases l with
  | nil => exact absurd rfl h
  | cons b bs => exact List.getLast?_cons_cons

theorem getParentSelector_subdir (config : ServerConfig) (rs segs : List Str)
    (hroot : NormalizedRoot config.documentRoot rs)
    (hsegs : segs ≠ []) (hg : ∀ t ∈ segs, GoodSeg t) (hbs : ∀ t ∈ segs, '\\' ∉ t) :
    getParentSelector config (config.documentRoot ++ '/' :: joinSep ['/'] segs) =
      if segs.length = 1 then sSlash else '/' :: joinSep ['/'] segs.dropLast := by
  obtain ⟨hrs, hgr, hdoc⟩ := hroot
  obtain ⟨hrootne, hrootlast⟩ := joinSep_good_last rs hrs hgr
  have hdochead : config.documentRoot.head? = some '/' := by rw [hdoc]; rfl
  have hdoclast : ∀ c, config.documentRoot.getLast? = some c → c ≠ '/' := by
    intro c hc
    rw [hdoc, getLast?_cons_of_ne_nil _ _ hrootne] at hc
    exact hrootlast c hc
  rcases List.eq_nil_or_concat segs with rfl | ⟨init, last, rfl⟩
  · exact absurd rfl hsegs
  · simp only [List.concat_eq_append] at hsegs hg hbs ⊢
    have hlastgood : GoodSeg last := hg last (by simp)
    by_cases hinit : init = []
    · subst hinit
      simp only [List.nil_append] at hsegs hg hbs ⊢
      have hdir : posixDirname (config.documentRoot ++ '/' :: joinSep ['/'] [last]) =
          config.documentRoot := by
        have hj : joinSep ['/'] [last] = last := rfl
        rw [hj]
        exact posixDirname_append_seg _ _ hdochead hdoclast hlastgood.1 hlastgood.2.2.2
      unfold getParentSelector
      rw [hdir, if_pos rfl, if_pos (by simp)]
    · have hinitgood : ∀ t ∈ init, GoodSeg t := fun t ht => hg t (by simp [ht])
      obtain ⟨hinitne, hinitlast⟩ := joinSep_good_last init hinit hinitgood
      have hsplitlast : joinSep ['/'] (init ++ [last]) =
          joinSep ['/'] init ++ '/' :: last := by
        rw [joinSep_append init [last] hinit, if_neg (by simp)]
        rfl
      have hassoc : config.documentRoot ++ '/' :: (joinSep ['/'] init ++ '/' :: last) =
          (config.documentRoot ++ '/' :: joinSep ['/'] init) ++ '/' :: last := by
        simp [List.append_assoc]
      have hdir : posixDirname (config.documentRoot ++ '/' :: joinSep ['/'] (init ++ [last])) =
          config.documentRoot ++ '/' :: joinSep ['/'] init := by
        rw [hsplitlast, hassoc]
        refine posixDirname_append_seg _ _ ?_ ?_ hlastgood.1 hlastgood.2.2.2
        · rw [hdoc]
          rfl
        · intro c hc
          rw [List.getLast?_append, getLast?_cons_of_ne_nil _ _ hinitne] at hc
          obtain ⟨x, hx⟩ : ∃ x, (joinSep ['/'] init).getLast? = some x := by
            cases hgl : (joinSep ['/'] init).getLast? with
            | none => exact absurd (List.getLast?_eq_none_iff.mp hgl) hinitne
            | some x => exact ⟨x, rfl⟩
          rw [hx, Option.or_some] at hc
          exact Option.some.inj hc ▸ hinitlast x hx
      have hne_root : config.documentRoot ++ '/' :: joinSep ['/'] init ≠
          config.documentRoot := by
        intro he
        have := congrArg List.length he
        simp at this
      have hlen : ¬ (init ++ [last]).length = 1 := by
        rw [List.length_append]
        simp only [List.length_singleton]
        intro h1
        exact hinit (List.length_eq_zero.mp (by omega))
      have hrel : posixRelative config.documentRoot
          (config.documentRoot ++ '/' :: joinSep ['/'] init) = joinSep ['/'] init := by
        rw [hdoc]
        exact posixRelative_down rs init hrs hgr hinit hinitgood
      have hnb : '\\' ∉ joinSep ['/'] init := by
        intro hmem
        rcases mem_joinSep init '\\' hmem with h | ⟨l, hl, hc⟩
        · exact absurd h.symm (by decide)
        · exact hbs l (by simp [hl]) hc
      unfold getParentSelector
      rw [hdir, if_neg hne_root, if_neg hlen, hrel, jsReplaceBackslashes_id _ hnb,
        List.dropLast_concat]

theorem itemCmp_swap_pos (a b : GopherItem) (h : itemCmp a b < 0) : 0 < itemCmp b a := by
  unfold itemCmp at *
  by_cases ha : a.type = '1' <;> by_cases hb : b.type = '1' <;> simp [ha, hb] at *
  · have := localeCompare_swap a.displayString b.displayString
    omega
  · have := localeCompare_swap a.displayString b.displayString
    omega

theorem sorted_head_min (l : List GopherItem) (x : GopherItem)
    (hs : List.Pairwise (fun a b => itemLe a b = true) l) (hx : x ∈ l)
    (hmin : ∀ y ∈ l, y ≠ x → itemCmp x y < 0) : l.head? = some x := by
  cases l with
  | nil => simp at hx
  | cons h t =>
    by_cases hhx : h = x
    · rw [hhx]
      rfl
    · rcases List.mem_cons.mp hx with rfl | hxt
      · exact absurd rfl hhx
      · have hle : itemLe h x = true := (List.pairwise_cons.mp hs).1 x hxt
        have hlt : itemCmp x h < 0 := hmin h (List.mem_cons_self _ _) (fun he => hhx he)
        have hsw := itemCmp_swap_pos x h hlt
        simp only [itemLe, decide_eq_true_eq] at hle
        omega

theorem mapped_no_dotdot (config : ServerConfig) (dirPath : Str) (entries : List DirEntry) :
    ∀ it ∈ entries.filterMap (fun e =>
      if jsStartsWith e.name ['.'] then none else some (listingItem config dirPath e)),
      it.displayString ≠ sDotDot := by
  intro it hit
  obtain ⟨e, _, hsome⟩ := List.mem_filterMap.mp hit
  by_cases h : jsStartsWith e.name ['.'] = true
  · rw [if_pos h] at hsome
    exact absurd hsome (by simp)
  · rw [if_neg h] at hsome
    have hi := Option.some.inj hsome
    rw [← hi]
    exact listingItem_display_ne_dotdot config dirPath e (by simpa using h)

theorem listing_parent_count (config : ServerConfig) (dirPath : Str) (entries : List DirEntry)
    (hne : dirPath ≠ config.documentRoot) :
    (getDirectoryListing config dirPath entries).countP
      (fun it => decide (it.displayString = sDotDot)) = 1 := by
  unfold getDirectoryListing
  rw [List.Perm.countP_eq _ (List.mergeSort_perm _ _), if_pos hne, List.countP_append]
  have h0 : (entries.filterMap (fun e =>
      if jsStartsWith e.name ['.'] then none else some (listingItem config dirPath e))).countP
      (fun it => decide (it.displayString = sDotDot)) = 0 := by
    rw [List.countP_eq_zero]
    intro it hit
    simpa using mapped_no_dotdot config dirPath entries it hit
  rw [h0]
  rfl

theorem listing_root_count (config : ServerConfig) (entries : List DirEntry) :
    (getDirectoryListing config config.documentRoot entries).countP
      (fun it => decide (it.displayString = sDotDot)) = 0 := by
  unfold getDirectoryListing
  rw [List.Perm.countP_eq _ (List.mergeSort_perm _ _), if_neg (by simp), List.nil_append,
    List.countP_eq_zero]
  intro it hit
  simpa using mapped_no_dotdot config config.documentRoot entries it hit

/-- C5 (amended): listing a well-formed directory strictly below the sandbox
root yields exactly one synthetic go-up entry, whose selector is the parent
directory's root-relative path (the root's own parent mapping to `/`);
listing the sandbox root yields zero such entries; and the go-up entry is
the first entry of the listing whenever every subdirectory's display label
collates after `..` — a subdirectory whose label collates before `..` is
sorted ahead of it instead. -/
theorem C5_parent_entry (config : ServerConfig) (rs : List Str) (dirPath : Str)
    (segs : List Str) (entries : List DirEntry)
    (hroot : NormalizedRoot config.documentRoot rs)
    (hsub : NormalizedSubdir config.documentRoot dirPath segs) :
    (getDirectoryListing config dirPath entries).countP
        (fun it => decide (it.displayString = sDotDot)) = 1 ∧
    (getDirectoryListing config config.documentRoot entries).countP
        (fun it => decide (it.displayString = sDotDot)) = 0 ∧
    (parentItem config dirPath).selector =
      (if segs.length = 1 then sSlash else '/' :: joinSep ['/'] segs.dropLast) ∧
    ((∀ e ∈ entries, jsStartsWith e.name ['.'] = false → e.isDir = true →
        localeCompare sDotDot (formatDisplayString e.name true) < 0) →
      (getDirectoryListing config dirPath entries).head? =
        some (parentItem config dirPath)) := by
  obtain ⟨hsegs, hgb, hdir⟩ := hsub
  have hg : ∀ t ∈ segs, GoodSeg t := fun t ht => (hgb t ht).1
  have hbs : ∀ t ∈ segs, '\\' ∉ t := fun t ht => (hgb t ht).2
  obtain ⟨hjoinne, -⟩ := joinSep_good_last segs hsegs hg
  have hne : dirPath ≠ config.documentRoot := by
    intro he
    have := congrArg List.length he
    rw [hdir] at this
    simp at this
  refine ⟨listing_parent_count config dirPath entries hne,
    listing_root_count config entries, ?_, ?_⟩
  · show getParentSelector config dirPath = _
    rw [hdir]
    exact getParentSelector_subdir config rs segs hroot hsegs hg hbs
  · intro hcoll
    unfold getDirectoryListing
    rw [if_pos hne]
    have hsorted := List.sorted_mergeSort itemLe_trans itemLe_total
      ([parentItem config dirPath] ++ entries.filterMap (fun e =>
        if jsStartsWith e.name ['.'] then none else some (listingItem config dirPath e)))
    refine sorted_head_min _ _ hsorted ?_ ?_
    · rw [List.mem_mergeSort]
      exact List.mem_append_left _ (List.mem_cons_self _ _)
    · intro y hy hyne
      rw [List.mem_mergeSort] at hy
      rcases List.mem_append.mp hy with hy | hy
      · exact absurd (List.mem_singleton.mp hy) hyne
      · obtain ⟨e, he, hsome⟩ := List.mem_filterMap.mp hy
        by_cases hh : jsStartsWith e.name ['.'] = true
        · rw [if_pos hh] at hsome
          exact absurd hsome (by simp)
        · rw [if_neg hh] at hsome
          have hy2 := Option.some.inj hsome
          subst hy2
          cases hd : e.isDir with
          | true =>
            have htype : (listingItem config dirPath e).type = '1' := by
              show determineItemType _ e.isDir = '1'
              rw [hd]
              rfl
            have hdisp : (listingItem config dirPath e).displayString =
                formatDisplayString e.name true := by
              show formatDisplayString e.name e.isDir = _
              rw [hd]
            unfold itemCmp
            rw [if_neg (by simp [htype, parentItem]), if_neg (by simp [htype, parentItem])]
            show localeCompare sDotDot _ < 0
            rw [hdisp]
            exact hcoll e he (by simpa using hh) hd
          | false =>
            have htype : (listingItem config dirPath e).type ≠ '1' := by
              show determineItemType _ e.isDir ≠ '1'
              rw [hd]
              exact determineItemType_false_ne_dir _
            unfold itemCmp
            rw [if_pos ⟨rfl, htype⟩]
            decide

theorem getDirectoryListing_single (config : ServerConfig) (dirPath : Str) (e : DirEntry)
    (hne : dirPath ≠ config.documentRoot) (hh : jsStartsWith e.name ['.'] = false) :
    getDirectoryListing config dirPath [e] =
      if itemLe (parentItem config dirPath) (listingItem config dirPath e) then
        [parentItem config dirPath, listingItem config dirPath e]
      else [listingItem config dirPath e, parentItem config dirPath] := by
  unfold getDirectoryListing
  rw [if_pos hne]
  have hmap : [e].filterMap (fun e =>
      if jsStartsWith e.name ['.'] then none else some (listingItem config dirPath e)) =
      [listingItem config dirPath e] := by
    simp [List.filterMap_cons, hh]
  rw [hmap]
  exact mergeSort_pair _ _ _

/-- C5 counterexample: in a subdirectory of the sandbox root containing one
subdirectory named `-a`, the listing holds exactly one go-up entry, yet its
first entry is the `-a/` entry, not the go-up entry: `-` collates before
`.`, so the comparator sorts it ahead. -/
theorem C5_parent_not_first :
    (getDirectoryListing cexConfig cexDir [cexEntryMinus]).countP
        (fun it => decide (it.displayString = sDotDot)) = 1 ∧
    ((getDirectoryListing cexConfig cexDir [cexEntryMinus]).head?.map
        (fun it => it.displayString)) = some (("-a/").data) ∧
    ("-a/").data ≠ sDotDot := by
  rw [getDirectoryListing_single cexConfig cexDir cexEntryMinus (by decide) (by decide)]
  decide

theorem C5_parent_entry_witness :
    (getDirectoryListing cexConfig cexDir [cexEntryB]).countP
        (fun it => decide (it.displayString = sDotDot)) = 1 ∧
    (getDirectoryListing cexConfig cexConfig.documentRoot [cexEntryB]).countP
        (fun it => decide (it.displayString = sDotDot)) = 0 ∧
    (parentItem cexConfig cexDir).selector = sSlash ∧
    (getDirectoryListing cexConfig cexDir [cexEntryB]).head? =
      some (parentItem cexConfig cexDir) := by
  have h := C5_parent_entry cexConfig [('r' :: 'o' :: 'o' :: 't' :: [])] cexDir
    [('s' :: 'u' :: 'b' :: [])] [cexEntryB]
    ⟨by decide, by decide, by decide⟩ ⟨by decide, by decide, by decide⟩
  refine ⟨h.1, h.2.1, ?_, h.2.2.2 (by decide)⟩
  have h3 := h.2.2.1
  simpa using h3

/-! ### Terminator-line lemmas -/

theorem splitCRLF_ne_nil (s : Str) : splitCRLF s ≠ [] := by
  induction s using splitCRLF.induct with
  | case1 => simp [splitCRLF]
  | case2 c => simp [splitCRLF]
  | case3 c d rest hcd ih => simp [splitCRLF, hcd]
  | case4 c d rest hcd heq ih => exact absurd heq ih
  | case5 c d rest hcd x xs heq ih => simp [splitCRLF, hcd, heq]

theorem splitCRLF_append_crlf (a : Str) :
    ∀ b, splitCRLF (a ++ '\r' :: '\n' :: b) = splitCRLF a ++ splitCRLF b := by
  induction a using splitCRLF.induct with
  | case1 =>
    intro b
    show splitCRLF ('\r' :: '\n' :: b) = [[]] ++ splitCRLF b
    rw [splitCRLF, if_pos ⟨rfl, rfl⟩]
    rfl
  | case2 c =>
    intro b
    show splitCRLF (c :: '\r' :: '\n' :: b) = [[c]] ++ splitCRLF b
    rw [splitCRLF, if_neg (by rintro ⟨-, h⟩; exact absurd h (by decide))]
    rw [show splitCRLF ('\r' :: '\n' :: b) = [] :: splitCRLF b from by
      rw [splitCRLF, if_pos ⟨rfl, rfl⟩]]
    rfl
  | case3 c d rest hcd ih =>
    intro b
    obtain ⟨rfl, rfl⟩ := hcd
    show splitCRLF ('\r' :: '\n' :: (rest ++ '\r' :: '\n' :: b)) = _
    rw [splitCRLF, if_pos ⟨rfl, rfl⟩, ih b]
    rw [show splitCRLF ('\r' :: '\n' :: rest) = [] :: splitCRLF rest from by
      rw [splitCRLF, if_pos ⟨rfl, rfl⟩]]
    rfl
  | case4 c d rest hcd heq ih => exact absurd heq (splitCRLF_ne_nil _)
  | case5 c d rest hcd x xs heq ih =>
    intro b
    show splitCRLF (c :: d :: (rest ++ '\r' :: '\n' :: b)) = _
    rw [splitCRLF, if_neg hcd]
    have hsh : splitCRLF (d :: (rest ++ '\r' :: '\n' :: b)) =
        (x :: xs) ++ splitCRLF b := by
      have hi := ih b
      rw [show d :: (rest ++ '\r' :: '\n' :: b) = (d :: rest) ++ '\r' :: '\n' :: b from rfl]
      rw [hi, heq]
    rw [hsh]
    rw [show splitCRLF (c :: d :: rest) = (c :: x) :: xs from by
      rw [splitCRLF, if_neg hcd, heq]]
    rfl

theorem splitCRLF_no_cr (s : Str) (h : '\r' ∉ s) : splitCRLF s = [s] := by
  induction s using splitCRLF.induct with
  | case1 => rfl
  | case2 c => rfl
  | case3 c d rest hcd ih =>
    obtain ⟨rfl, rfl⟩ := hcd
    exact absurd (List.mem_cons_self _ _) h
  | case4 c d rest hcd heq ih => exact absurd heq (splitCRLF_ne_nil _)
  | case5 c d rest hcd x xs heq ih =>
    have hd : '\r' ∉ d :: rest := fun hm => h (List.mem_cons_of_mem c hm)
    rw [splitCRLF, if_neg hcd, heq]
    have hx := ih hd
    rw [heq] at hx
    simp only [List.cons.injEq] at hx
    rw [hx.1, hx.2]

theorem natToStr_digit (n : Nat) : ∀ c ∈ natToStr n, 48 ≤ c.toNat ∧ c.toNat ≤ 57 := by
  induction n using natToStr.induct with
  | case1 n h =>
    intro c hc
    rw [natToStr, if_pos h] at hc
    rcases List.mem_singleton.mp hc with rfl
    have hb : ∀ m, m < 10 → 48 ≤ (Nat.digitChar m).toNat ∧ (Nat.digitChar m).toNat ≤ 57 := by
      decide
    exact hb n h
  | case2 n h ih =>
    intro c hc
    rw [natToStr, if_neg h] at hc
    rcases List.mem_append.mp hc with hc | hc
    · exact ih c hc
    · rcases List.mem_singleton.mp hc with rfl
      have hlt : n % 10 < 10 := Nat.mod_lt _ (by omega)
      have hb : ∀ m, m < 10 → 48 ≤ (Nat.digitChar m).toNat ∧ (Nat.digitChar m).toNat ≤ 57 := by
        decide
      exact hb _ hlt

theorem natToStr_no_cr (n : Nat) : '\r' ∉ natToStr n := by
  intro h
  have := natToStr_digit n '\r' h
  revert this
  decide

theorem itemLineBody_no_cr (it : GopherItem) (h1 : it.type ≠ '\r')
    (h2 : '\r' ∉ it.displayString) (h3 : '\r' ∉ it.selector) (h4 : '\r' ∉ it.hostname) :
    '\r' ∉ itemLineBody it := by
  have h1x : ¬ '\r' = it.type := fun he => h1 he.symm
  have htab : ¬ '\r' = '\t' := by decide
  unfold itemLineBody
  intro hm
  simp only [List.mem_cons, List.mem_append] at hm
  simp [h1x, htab, h2, h3, h4, natToStr_no_cr it.port] at hm

theorem itemLineBody_length (it : GopherItem) : 4 ≤ (itemLineBody it).length := by
  unfold itemLineBody
  simp
  omega

theorem splitCRLF_terminator : splitCRLF terminator = [['.'], []] := by decide

theorem splitCRLF_dir_response (items : List GopherItem) (h : ∀ it ∈ items, CRFreeItem it) :
    splitCRLF (wireDirectoryResponse items) = items.map itemLineBody ++ [['.'], []] := by
  induction items with
  | nil =>
    show splitCRLF terminator = _
    rw [splitCRLF_terminator]
    rfl
  | cons it items ih =>
    have hline : wireDirectoryResponse (it :: items) =
        itemLineBody it ++ '\r' :: '\n' :: wireDirectoryResponse items := by
      unfold wireDirectoryResponse serverFormatDirectoryListing
      simp [List.append_assoc]
    rw [hline, splitCRLF_append_crlf,
      splitCRLF_no_cr _ (itemLineBody_no_cr it (h it (List.mem_cons_self _ _)).1
        (h it (List.mem_cons_self _ _)).2.1 (h it (List.mem_cons_self _ _)).2.2.1
        (h it (List.mem_cons_self _ _)).2.2.2),
      ih (fun x hx => h x (List.mem_cons_of_mem _ hx))]
    rfl

/-- C7 (amended): every wire response — listing, file payload, or error —
carries the byte suffix `.` CRLF, appended exactly once by the handler;
directory and error responses built from carriage-return-free fields contain
exactly one terminator line; but a file payload is passed through verbatim
with no dot-escaping, so the terminator is a lone line only when the payload
is empty or CRLF-terminated, and a payload containing a lone `.` line yields
a duplicate terminator. -/
theorem C7_terminator_framing (items : List GopherItem) (data message : Str) :
    jsEndsWith (wireDirectoryResponse items) terminator = true ∧
    jsEndsWith (wireFileResponse data) terminator = true ∧
    jsEndsWith (wireErrorResponse message) terminator = true ∧
    wireFileResponse data = data ++ terminator ∧
    ((∀ it ∈ items, CRFreeItem it) →
      terminatorLineCount (wireDirectoryResponse items) = 1) ∧
    ('\r' ∉ message → terminatorLineCount (wireErrorResponse message) = 1) := by
  refine ⟨?_, ?_, ?_, rfl, ?_, ?_⟩
  · simp [jsEndsWith, wireDirectoryResponse]
  · simp [jsEndsWith, wireFileResponse]
  · simp only [jsEndsWith, wireErrorResponse, decide_eq_true_eq]
    exact List.suffix_append _ _
  · intro h
    unfold terminatorLineCount
    rw [splitCRLF_dir_response items h, List.count_append]
    have h0 : (items.map itemLineBody).count ['.'] = 0 := by
      rw [List.count_eq_zero]
      intro hmem
      obtain ⟨it, -, hit⟩ := List.mem_map.mp hmem
      have := itemLineBody_length it
      rw [hit] at this
      simp at this
    rw [h0]
    rfl
  · intro h
    unfold terminatorLineCount wireErrorResponse
    have hsplit : '3' :: ("Error: ").data ++ message ++ "\terror\terror\t70\r\n".data ++
        terminator =
        ('3' :: ("Error: ").data ++ message ++ "\terror\terror\t70".data) ++
          '\r' :: '\n' :: terminator := by
      simp [List.append_assoc]
    rw [hsplit, splitCRLF_append_crlf, splitCRLF_terminator]
    have hnocr : '\r' ∉ '3' :: ("Error: ").data ++ message ++ "\terror\terror\t70".data := by
      intro hm
      rcases List.mem_cons.mp hm with he | hm
      · exact absurd he.symm (by decide)
      rcases List.mem_append.mp hm with hm | hm
      · rcases List.mem_append.mp hm with hm | hm
        · exact absurd hm (by decide)
        · exact h hm
      · exact absurd hm (by decide)
    rw [splitCRLF_no_cr _ hnocr]
    have hlen : ('3' :: ("Error: ").data ++ message ++ "\terror\terror\t70".data) ≠ ['.'] := by
      intro he
      have := congrArg List.length he
      simp at this
    rw [List.count_append, List.count_cons]
    simp [hlen]

/-- C7 counterexample: a file whose content is a lone terminator line is
served verbatim, so the wire response contains the terminator twice — there
is no escaping of payload lines. -/
theorem C7_payload_duplicates_terminator :
    terminatorLineCount (wireFileResponse (('.') :: '\r' :: '\n' :: [])) = 2 ∧
    jsEndsWith (wireFileResponse (('.') :: '\r' :: '\n' :: [])) terminator = true := by decide

theorem C7_terminator_framing_witness :
    terminatorLineCount (wireDirectoryResponse [itemSearchable]) = 1 ∧
    terminatorLineCount (wireErrorResponse (("File not found").data)) = 1 := by
  have h := C7_terminator_framing [itemSearchable] [] (("File not found").data)
  exact ⟨h.2.2.2.2.1 (by decide), h.2.2.2.2.2 (by decide)⟩

end Gopher

